import Mathlib

/-!
Verification of the beancount grammar builder
(`src/beancount/cparser/grammar.py`).

The builder is the semantic-action layer of the beancount parser: one
callback per grammar production, accumulating directives and errors.  This
file gives a shallow embedding of the builder's data model and operations
and proves the behavioural properties claimed by the design document.

Modelling conventions:
* Python runtime values are `PyVal`; a value together with its object
  identity is `PyObj` (the source compares metadata values with `is`).
* Python `dict`s with string keys are insertion-ordered association lists.
* Fallible Python code (code that can raise) is embedded in `Except PyExn`.
* Collaborators outside the covered source (`beancount.parser.options`,
  `beancount.core.data` helpers, `posixpath`) are modelled from the spec or
  from their documented library semantics; each such definition says so.
-/

set_option maxHeartbeats 1000000

namespace BeancountGrammar

/-- Booking methods.  Modelled from the spec: "Booking method: an
enumeration of fixed symbolic values (e.g., STRICT, FIFO, AVERAGE, NONE
...); resolved from a string token."  The enumeration itself lives in
`beancount.core.data`, outside the covered source. -/
inductive Booking where
  | STRICT
  | NONE
  | AVERAGE
  | FIFO
  | LIFO
  deriving DecidableEq

/-- `Booking[booking_str]`: Python `Enum.__getitem__`, lookup of a member by
its exact name (raising `KeyError`, i.e. `none`, when absent). -/
def Booking.fromName : String → Option Booking
  | "STRICT" => some .STRICT
  | "NONE" => some .NONE
  | "AVERAGE" => some .AVERAGE
  | "FIFO" => some .FIFO
  | "LIFO" => some .LIFO
  | _ => none

/-- Python runtime values as the builder handles them: option values,
metadata values, converter results.  The constructors mirror the runtime
type dispatch the source performs (`isinstance(..., list)`, `dict`, `bool`,
`tuple`, and use of `str` methods). -/
inductive PyVal where
  | pynone : PyVal
  | str (s : String) : PyVal
  | int (n : Int) : PyVal
  | bool (b : Bool) : PyVal
  | date (ordinal : Nat) : PyVal
  | booking (b : Booking) : PyVal
  | tuple (items : List PyVal) : PyVal
  | pylist (items : List PyVal) : PyVal
  | pydict (items : List (PyVal × PyVal)) : PyVal

/-- Structural equality on `PyVal`, i.e. Python `==` for these values. -/
def PyVal.beq : PyVal → PyVal → Bool
  | .pynone, .pynone => true
  | .str a, .str b => a == b
  | .int a, .int b => a == b
  | .bool a, .bool b => a == b
  | .date a, .date b => a == b
  | .booking a, .booking b => a == b
  | .tuple xs, .tuple ys => beqList xs ys
  | .pylist xs, .pylist ys => beqList xs ys
  | .pydict xs, .pydict ys => beqPairs xs ys
  | _, _ => false
where
  beqList : List PyVal → List PyVal → Bool
    | [], [] => true
    | a :: as, b :: bs => PyVal.beq a b && beqList as bs
    | _, _ => false
  beqPairs : List (PyVal × PyVal) → List (PyVal × PyVal) → Bool
    | [], [] => true
    | (k1, v1) :: as, (k2, v2) :: bs =>
        PyVal.beq k1 k2 && PyVal.beq v1 v2 && beqPairs as bs
    | _, _ => false

instance : BEq PyVal := ⟨PyVal.beq⟩

/-- A Python object reference: a structural value together with its object
identity.  The source compares metadata values with `is` / `is not`
(identity, not equality), so the embedding carries an identity tag: two
references denote the same object exactly when their `id` fields agree. -/
structure PyObj where
  id : Nat
  val : PyVal

/-- `value is not other` for two object references. -/
def PyObj.isNot (a b : PyObj) : Bool := a.id != b.id

/-- The `KeyValue` named tuple of the source: one metadata attachment. -/
structure KeyValue where
  key : String
  value : PyObj

/-- The `TagsLinks` named tuple of the source: a transient bundle of tags
and links parsed inside a transaction body.  Python sets of strings are
modelled as duplicate-free lists. -/
structure TagsLinks where
  tags : List String
  links : List String

/-- A Python `dict` with string keys: an insertion-ordered association list
whose keys are unique. -/
abbrev MetaMap := List (String × PyObj)

/-- `d[k]` lookup (as an `Option`). -/
def dictLookup (m : MetaMap) (k : String) : Option PyObj :=
  match m with
  | [] => none
  | (k0, v0) :: rest => if k0 = k then some v0 else dictLookup rest k

/-- `d[k] = v`: replace in place when the key exists (keeping its
position), append otherwise. -/
def dictSet (m : MetaMap) (k : String) (v : PyObj) : MetaMap :=
  match m with
  | [] => [(k, v)]
  | (k0, v0) :: rest =>
      if k0 = k then (k0, v) :: rest else (k0, v0) :: dictSet rest k v

/-- `d.update(src)`: set every pair of `src` into `d`, in order. -/
def dictUpdate (m src : MetaMap) : MetaMap :=
  src.foldl (fun acc kv => dictSet acc kv.1 kv.2) m

/-- `d.setdefault(k, v)`: returns the updated dict and the value Python's
`setdefault` returns (the stored value when the key exists, `v` itself
otherwise). -/
def dictSetdefault (m : MetaMap) (k : String) (v : PyObj) : MetaMap × PyObj :=
  match dictLookup m k with
  | some v0 => (m, v0)
  | none => (m ++ [(k, v)], v)

/-- `beancount.core.data.new_metadata(filename, lineno, kvlist)`: a metadata
dict holding the source location, extended with the parsed key-values.
Modelled from the spec ("Every variant carries: source location (file,
line), ... and a metadata mapping"); the helper itself lives outside the
covered source.  The two location objects are interned with identity 0;
no identity comparison is ever performed on them. -/
def new_metadata (filename : String) (lineno : Nat) (kvlist : List KeyValue) : MetaMap :=
  dictUpdate [("filename", ⟨0, .str filename⟩), ("lineno", ⟨0, .int (Int.ofNat lineno)⟩)]
    (kvlist.map fun kv => (kv.key, kv.value))

/-- Exceptions the embedded Python code can raise. -/
inductive PyExn where
  | unboundLocalError (name : String)
  | nameError (name : String)
  | attributeError (name : String)
  | keyError (key : String)
  deriving DecidableEq

/-! ## Directive records

The record types come from `beancount.core.data` (outside the covered
source); their fields are modelled from the spec's data model: every
variant carries source location (inside `meta`), a date, and kind-specific
fields.  Dates are represented by their ordinal. -/

/-- `Amount(number, currency)`. -/
structure Amount where
  number : PyVal
  currency : String

/-- `Posting(account, units, cost, price, flag, meta)`.  Only `meta` is
inspected by the builder; the other fields are carried verbatim. -/
structure Posting where
  account : String
  units : PyVal
  cost : PyVal
  price : PyVal
  flag : Option String
  meta : Option MetaMap

/-- The `Open` directive. -/
structure OpenDirective where
  meta : MetaMap
  date : Nat
  account : String
  currencies : Option (List String)
  booking : Option PyVal

/-- The `Close` directive. -/
structure CloseDirective where
  meta : MetaMap
  date : Nat
  account : String

/-- The `Commodity` directive. -/
structure CommodityDirective where
  meta : MetaMap
  date : Nat
  currency : String

/-- The `Pad` directive. -/
structure PadDirective where
  meta : MetaMap
  date : Nat
  account : String
  source_account : String

/-- The `Event` directive. -/
structure EventDirective where
  meta : MetaMap
  date : Nat
  typ : String
  description : String

/-- The `Query` directive. -/
structure QueryDirective where
  meta : MetaMap
  date : Nat
  name : String
  query_string : String

/-- The `Price` directive. -/
structure PriceDirective where
  meta : MetaMap
  date : Nat
  currency : String
  amount : Amount

/-- The `Note` directive. -/
structure NoteDirective where
  meta : MetaMap
  date : Nat
  account : String
  comment : String

/-- The `Document` directive. -/
structure DocumentDirective where
  meta : MetaMap
  date : Nat
  account : String
  filename : String
  tags : List String
  links : List String

/-- The `ValueType` named tuple of the source: a custom value paired with
the name of its datatype. -/
structure ValueType where
  value : PyVal
  dtype : String

/-- The `Custom` directive. -/
structure CustomDirective where
  meta : MetaMap
  date : Nat
  dir_type : String
  values : List ValueType

/-- The `Transaction` directive. -/
structure Transaction where
  meta : MetaMap
  date : Nat
  flag : Char
  payee : Option String
  narration : String
  tags : List String
  links : List String
  postings : List Posting

/-- The closed union of directive kinds accumulated in `self.entries`. -/
inductive Directive where
  | txn (t : Transaction)
  | openD (o : OpenDirective)
  | close (c : CloseDirective)
  | commodity (c : CommodityDirective)
  | pad (p : PadDirective)
  | event (e : EventDirective)
  | query (q : QueryDirective)
  | price (p : PriceDirective)
  | note (n : NoteDirective)
  | document (d : DocumentDirective)
  | custom (c : CustomDirective)

/-- The directive's date, common to every kind. -/
def Directive.date : Directive → Nat
  | .txn t => t.date
  | .openD o => o.date
  | .close c => c.date
  | .commodity c => c.date
  | .pad p => p.date
  | .event e => e.date
  | .query q => q.date
  | .price p => p.date
  | .note n => n.date
  | .document d => d.date
  | .custom c => c.date

/-- The directive's kind tag, used by the sort tie-break. -/
inductive DirKind where
  | txn | openK | close | commodity | pad | event | query | price | note
  | document | custom
  deriving DecidableEq

/-- The kind tag of a directive. -/
def Directive.kind : Directive → DirKind
  | .txn _ => .txn
  | .openD _ => .openK
  | .close _ => .close
  | .commodity _ => .commodity
  | .pad _ => .pad
  | .event _ => .event
  | .query _ => .query
  | .price _ => .price
  | .note _ => .note
  | .document _ => .document
  | .custom _ => .custom

/-- Errors recorded by the builder: one constructor per `errors.append`
site in the source, carrying exactly the data that site formats into its
message.  The three constructor families of the source (`ParserError`,
`ParserSyntaxError`, `DeprecatedError`) are recovered by which constructor
is used. -/
inductive BErr where
  | invalidOption (source : MetaMap) (key : String)
  | readOnlyOption (source : MetaMap) (key : String)
  | deprecatedOption (source : MetaMap) (message : String)
  | optionConversionError (source : MetaMap) (key message : String)
  | optionDictValueError (source : MetaMap) (key : String) (value : PyVal)
  | invalidBooking (source : MetaMap) (bookingStr : String) (entry : OpenDirective)
  | tagsLinksAfterPosting (source : MetaMap) (tags links : List String)
  | duplicateEntryMeta (source : MetaMap) (kv : KeyValue)
  | duplicatePostingMeta (source : MetaMap) (kv : KeyValue)
  | tooManyStrings (source : MetaMap) (strings : List String)
  | grammarError (source : MetaMap) (message : String)

/-! ## posixpath model

`os.path` on POSIX, used by `Builder.document` and the
`insert_pythonpath` option.  Pure string computation, modelled from the
documented `posixpath` semantics; the working directory is passed
explicitly (the builder performs no file access). -/

/-- Prefix test on character lists (the list model of
`String.startsWith`, used so that all path computation reduces). -/
def charsStart : List Char → List Char → Bool
  | [], _ => true
  | _ :: _, [] => false
  | a :: as, b :: bs => a = b && charsStart as bs

/-- `str.split(sep)` for a one-character separator, on character lists. -/
def splitChar (sep : Char) : List Char → List (List Char)
  | [] => [[]]
  | c :: rest =>
      let r := splitChar sep rest
      if c = sep then [] :: r
      else
        match r with
        | h :: t => (c :: h) :: t
        | [] => [[c]]

/-- `posixpath.isabs`. -/
def posixIsabs (p : String) : Bool := charsStart ['/'] p.toList

/-- Index of the last `/` in a character list, if any. -/
def rfindSlash (cs : List Char) : Option Nat :=
  match cs.reverse.findIdx? (· = '/') with
  | none => none
  | some j => some (cs.length - 1 - j)

/-- `posixpath.dirname`. -/
def posixDirname (p : String) : String :=
  let cs := p.toList
  match rfindSlash cs with
  | none => ""
  | some i =>
      let head := cs.take (i + 1)
      if head.all (· = '/') then String.mk head
      else String.mk ((head.reverse.dropWhile (· = '/')).reverse)

/-- `posixpath.join` for two components. -/
def posixJoin (a b : String) : String :=
  if charsStart ['/'] b.toList then b
  else if a = "" || a.toList.getLast? = some '/' then a ++ b
  else a ++ "/" ++ b

/-- `posixpath.normpath`. -/
def posixNormpath (p : String) : String :=
  if p = "" then "."
  else
    let initialSlashes : Nat :=
      if ¬ charsStart ['/'] p.toList then 0
      else if charsStart ['/', '/'] p.toList && ¬ charsStart ['/', '/', '/'] p.toList then 2
      else 1
    let step := fun (acc : List String) (comp : String) =>
      if comp = "" || comp = "." then acc
      else if comp ≠ ".." || (initialSlashes = 0 && acc.isEmpty) ||
              (match acc with | c :: _ => c = ".." | [] => false) then comp :: acc
      else match acc with
           | _ :: rest => rest
           | [] => []
    let newComps := (((splitChar '/' p.toList).map String.mk).foldl step []).reverse
    let path := String.join (List.replicate initialSlashes "/") ++
      String.intercalate "/" newComps
    if path = "" then "." else path

/-- `posixpath.abspath`, with the working directory supplied explicitly. -/
def posixAbspath (cwd p : String) : String :=
  if posixIsabs p then posixNormpath p else posixNormpath (posixJoin cwd p)

/-! ## Option registry -/

/-- One entry of `beancount.parser.options.OPTIONS`.  Modelled from the
spec: "The option schema is an injected table, one entry per recognized
key: (kind, converter?, alias?, deprecatedMessage?, readOnly)"; the table
itself lives outside the covered source.  The kind is not stored here
because the source dispatches on the runtime type of the stored value, not
on a declared tag. -/
structure OptionDescriptor where
  deprecated : Option String
  aliasKey : Option String
  converter : Option (PyVal → Except String PyVal)

/-- The injected option schema: descriptors (total, as the source indexes
`OPTIONS[key]` only for keys present in the store) and the read-only key
set. -/
structure OptionsSchema where
  descr : String → OptionDescriptor
  readOnly : List String

/-- The option store `self.options`: Python dict from key to value. -/
abbrev OptionStore := List (String × PyVal)

/-- Store lookup, `self.options[key]` as an `Option`. -/
def storeLookup (m : OptionStore) (k : String) : Option PyVal :=
  match m with
  | [] => none
  | (k0, v0) :: rest => if k0 = k then some v0 else storeLookup rest k

/-- `self.options[key] = value` (replace in place, append when absent). -/
def storeSet (m : OptionStore) (k : String) (v : PyVal) : OptionStore :=
  match m with
  | [] => [(k, v)]
  | (k0, v0) :: rest =>
      if k0 = k then (k0, v) :: rest else (k0, v0) :: storeSet rest k v

/-- `option[dict_key] = dict_value` on a mapping-typed option value,
keyed by Python `==` on the subkey. -/
def pydictSet (m : List (PyVal × PyVal)) (k v : PyVal) : List (PyVal × PyVal) :=
  match m with
  | [] => [(k, v)]
  | (k0, v0) :: rest =>
      if PyVal.beq k0 k then (k0, v) :: rest else (k0, v0) :: pydictSet rest k v

/-- `str.lower`, on the ASCII alphabet the source relies on. -/
def pyLower (s : String) : String := String.mk (s.toList.map Char.toLower)

/-- `beancount.core.account` constants (outside the covered source):
the account-name component separator and component pattern, carried as
opaque pattern text. -/
def accountSep : String := ":"

/-- Stand-in text for `account.ACC_COMP_NAME_RE` (the concrete pattern is
irrelevant to the builder's logic). -/
def accCompNameRe : String := "ACC_COMP_NAME_RE"

/-- `valid_account_regexp(options)`: the account-validation pattern built
from the five account-type name options, represented by the pattern string
the source assembles. -/
def valid_account_regexp (opts : OptionStore) : String :=
  let nameOf := fun (k : String) =>
    match storeLookup opts k with
    | some (.str s) => s
    | _ => ""
  let names := ["name_assets", "name_liabilities", "name_equity",
                "name_income", "name_expenses"].map nameOf
  "(?:" ++ String.intercalate "|" names ++ ")(?:" ++ accountSep ++
    accCompNameRe ++ ")+"

/-- The mutable state of one `Builder` session: accumulated entries, the
option store, the error list, the derived account pattern, and the module
search path (`sys.path`, touched only by `insert_pythonpath`). -/
structure BuilderState where
  entries : List Directive
  options : OptionStore
  errors : List BErr
  accountRegexp : String
  sysPath : List String

namespace Builder

/-- The side-effect block at the end of a successful `option()` call
(grammar.py lines 284-291): refresh the account pattern when one of the
five `name_` classifiers changed; prepend this file's directory to the
module search path on `insert_pythonpath`. -/
def postOption (st : BuilderState) (filename key : String) : BuilderState :=
  if charsStart "name_".toList key.toList then
    { st with accountRegexp := valid_account_regexp st.options }
  else if key = "insert_pythonpath" then
    { st with sysPath := posixDirname filename :: st.sysPath }
  else st

/-- `Builder.option(filename, lineno, key, value)` (grammar.py lines
213-291).  The Python local variable `meta` is modelled by an
`Option MetaMap` that is `none` until some branch assigns it; reading it
while `none` raises `UnboundLocalError`, exactly as Python does. -/
def option (sch : OptionsSchema) (st : BuilderState) (filename : String)
    (lineno : Nat) (key : String) (value : PyVal) :
    Except PyExn BuilderState :=
  if (storeLookup st.options key).isNone then
    let meta := new_metadata filename lineno []
    .ok { st with errors := st.errors ++ [.invalidOption meta key] }
  else if key ∈ sch.readOnly then
    let meta := new_metadata filename lineno []
    .ok { st with errors := st.errors ++ [.readOnlyOption meta key] }
  else
    let d := sch.descr key
    -- Deprecation warning; this is the only assignment to `meta` that can
    -- still be live when the mapping-typed merge below reads it.
    let depErrs : List BErr :=
      match d.deprecated with
      | some msg => [.deprecatedOption (new_metadata filename lineno []) msg]
      | none => []
    let metaLocal : Option MetaMap :=
      match d.deprecated with
      | some _ => some (new_metadata filename lineno [])
      | none => none
    let st := { st with errors := st.errors ++ depErrs }
    -- Alias redirection.
    let keyd : String × OptionDescriptor :=
      match d.aliasKey with
      | some a => (a, sch.descr a)
      | none => (key, d)
    let key := keyd.1
    let d := keyd.2
    -- Optional converter.
    let converted : Except String PyVal :=
      match d.converter with
      | some f => f value
      | none => .ok value
    match converted with
    | .error msg =>
        let meta := new_metadata filename lineno []
        .ok { st with errors := st.errors ++ [.optionConversionError meta key msg] }
    | .ok value =>
        match storeLookup st.options key with
        | none => .error (.keyError key)
        | some stored =>
            match stored with
            | .pylist xs =>
                -- Append to a list of values.
                .ok (postOption
                  { st with options := storeSet st.options key (.pylist (xs ++ [value])) }
                  filename key)
            | .pydict xvs =>
                -- Set to a dict of values.
                match value with
                | .tuple [dictKey, dictValue] =>
                    .ok (postOption
                      { st with options :=
                          storeSet st.options key (.pydict (pydictSet xvs dictKey dictValue)) }
                      filename key)
                | _ =>
                    -- The source formats an error with `meta`, which was
                    -- never assigned on this path unless the deprecation
                    -- branch ran: `UnboundLocalError` otherwise.
                    match metaLocal with
                    | some m =>
                        .ok { st with errors :=
                          st.errors ++ [.optionDictValueError m key value] }
                    | none => .error (.unboundLocalError "meta")
            | .bool _ =>
                -- Convert to a boolean.
                match value with
                | .bool b =>
                    .ok (postOption
                      { st with options := storeSet st.options key (.bool b) }
                      filename key)
                | .str s =>
                    let b := (pyLower s = "true" || pyLower s = "on") || s = "1"
                    .ok (postOption
                      { st with options := storeSet st.options key (.bool b) }
                      filename key)
                | _ => .error (.attributeError "lower")
            | _ =>
                -- Set the value.
                .ok (postOption
                  { st with options := storeSet st.options key value }
                  filename key)

/-- `Builder.open(filename, lineno, date, account, currencies, booking_str,
kvlist)` (grammar.py lines 330-363).  An invalid booking token substitutes
the globally configured default `self.options['booking_method']` and
records an error; a missing `booking_method` store entry would raise
`KeyError`, as in Python. -/
def openDirective (st : BuilderState) (filename : String) (lineno : Nat)
    (date : Nat) (account : String) (currencies : Option (List String))
    (booking_str : Option String) (kvlist : List KeyValue) :
    Except PyExn (BuilderState × OpenDirective) :=
  let meta := new_metadata filename lineno kvlist
  let resolved : Except PyExn (Option PyVal × Bool) :=
    match booking_str with
    | none => .ok (none, false)
    | some s =>
        if s = "" then .ok (none, false)
        else
          match Booking.fromName s with
          | some b => .ok (some (.booking b), false)
          | none =>
              match storeLookup st.options "booking_method" with
              | some dflt => .ok (some dflt, true)
              | none => .error (.keyError "booking_method")
  match resolved with
  | .error e => .error e
  | .ok (booking, error) =>
      let entry : OpenDirective := ⟨meta, date, account, currencies, booking⟩
      if error then
        .ok ({ st with errors := st.errors ++
          [.invalidBooking meta (booking_str.getD "") entry] }, entry)
      else
        .ok (st, entry)

/-- The filename-resolution step of `Builder.document` (grammar.py lines
492-494): a relative document filename is resolved against the directory
of the currently parsed source file. -/
def resolveDocumentFilename (cwd filename document_filename : String) : String :=
  if ¬ posixIsabs document_filename then
    posixAbspath cwd (posixJoin (posixDirname filename) document_filename)
  else document_filename

/-- `Builder.document(filename, lineno, date, account, document_filename,
tags, links, kvlist)` (grammar.py lines 475-496).  After building the
metadata and resolving the filename, the source evaluates
`tags_links.tags` — but no name `tags_links` is bound anywhere in the
function (its parameters are `tags` and `links`), so every call raises
`NameError` before returning. -/
def document (st : BuilderState) (cwd filename : String) (lineno : Nat)
    (date : Nat) (account : String) (document_filename : String)
    (tags links : List String) (kvlist : List KeyValue) :
    Except PyExn (BuilderState × DocumentDirective) :=
  let _meta := new_metadata filename lineno kvlist
  let _document_filename := resolveDocumentFilename cwd filename document_filename
  .error (.nameError "tags_links")

/-! ## Transaction assembly -/

/-- An element of `posting_or_kv_list`: the runtime type dispatch
`isinstance(..., Posting)` / `isinstance(..., TagsLinks)` / else a
`KeyValue`. -/
inductive TxnItem where
  | posting (p : Posting)
  | tagsLinks (tl : TagsLinks)
  | keyValue (kv : KeyValue)

/-- `set.update(src)` on the duplicate-free list model of Python string
sets: append the members of `src` not yet present, in order. -/
def setUpdate (s src : List String) : List String :=
  src.foldl (fun acc x => if x ∈ acc then acc else acc ++ [x]) s

/-- The loop state of the posting/key-value separation loop of
`Builder.transaction`: the entry-level metadata collected so far, the
postings collected so far (the source's `last_posting` is the last element
of `postings` whenever one exists), and the transaction-level tag/link
sets. -/
structure TxnScratch where
  explicit_meta : MetaMap
  postings : List Posting
  tags : List String
  links : List String

/-- One iteration of the separation loop of `Builder.transaction`
(grammar.py lines 596-630), returning the new loop state and the errors
the iteration appends. -/
def txnStepCore (meta : MetaMap) (sc : TxnScratch) (item : TxnItem) :
    TxnScratch × List BErr :=
  match item with
  | .posting p => ({ sc with postings := sc.postings ++ [p] }, [])
  | .tagsLinks tl =>
      if sc.postings.isEmpty then
        ({ sc with tags := setUpdate sc.tags tl.tags,
                   links := setUpdate sc.links tl.links }, [])
      else
        (sc, [.tagsLinksAfterPosting meta tl.tags tl.links])
  | .keyValue kv =>
      match sc.postings.getLast? with
      | none =>
          -- Entry scope: `explicit_meta.setdefault(...)`, then an error
          -- when the returned value is not the supplied object.
          let md := dictSetdefault sc.explicit_meta kv.key kv.value
          if md.2.isNot kv.value then
            ({ sc with explicit_meta := md.1 }, [.duplicateEntryMeta meta kv])
          else
            ({ sc with explicit_meta := md.1 }, [])
      | some lastP =>
          -- Posting scope: create the posting's metadata mapping lazily,
          -- `setdefault` into it, error when the returned value is not
          -- the supplied object.
          let md := dictSetdefault (lastP.meta.getD []) kv.key kv.value
          let postings' := sc.postings.dropLast ++ [{ lastP with meta := some md.1 }]
          if md.2.isNot kv.value then
            ({ sc with postings := postings' }, [.duplicatePostingMeta meta kv])
          else
            ({ sc with postings := postings' }, [])

/-- The whole separation loop, accumulating errors in order. -/
def txnRunCore (meta : MetaMap) (sc : TxnScratch) :
    List TxnItem → TxnScratch × List BErr
  | [] => (sc, [])
  | it :: rest =>
      let r1 := txnStepCore meta sc it
      let r2 := txnRunCore meta r1.1 rest
      (r2.1, r1.2 ++ r2.2)

/-- `Builder._unpack_txn_strings` (grammar.py lines 527-550): unpack the
descriptor strings into (payee, narration), or record an error and return
`None` when there are more than two. -/
def unpack_txn_strings (txn_strings : Option (List String)) (meta : MetaMap) :
    Option (Option String × String) × List BErr :=
  match txn_strings with
  | none => (some (none, ""), [])
  | some l =>
      match l with
      | [n] => (some (none, n), [])
      | [p, n] => (some (some p, n), [])
      | [] => (some (none, ""), [])
      | _ => (none, [.tooManyStrings meta l])

/-- `Builder._finalize_tags_links` (grammar.py lines 552-562): freeze the
accumulated tag/link sets; the empty set maps to the canonical empty
value.  On the duplicate-free list model both branches produce the list
itself. -/
def finalize_tags_links (tags links : List String) :
    List String × List String :=
  ((if tags.isEmpty then [] else tags), (if links.isEmpty then [] else links))

/-- `Builder.transaction(filename, lineno, date, flag, txn_strings, tags,
links, posting_or_kv_list, active_meta)` (grammar.py lines 564-667).
Returns the updated session state and the new `Transaction`, or `none`
when the transaction is dropped. -/
def transaction (st : BuilderState) (filename : String) (lineno : Nat)
    (date : Nat) (flag : Nat) (txn_strings : Option (List String))
    (tags links : List String) (posting_or_kv_list : Option (List TxnItem))
    (active_meta : MetaMap) : BuilderState × Option Transaction :=
  let meta := new_metadata filename lineno []
  -- Separate postings and key-values.
  let r := txnRunCore meta ⟨[], [], tags, links⟩ (posting_or_kv_list.getD [])
  let st := { st with errors := st.errors ++ r.2 }
  -- Freeze the tags & links or set to default empty values.
  let tl := finalize_tags_links r.1.tags r.1.links
  -- Initialize the metadata fields from the set of active values, then
  -- add on explicitly defined values (an update with an empty mapping is
  -- the identity, matching the source's truthiness guards).
  let meta := dictUpdate meta active_meta
  let meta := dictUpdate meta r.1.explicit_meta
  -- Unpack the transaction fields.
  let pn := unpack_txn_strings txn_strings meta
  let st := { st with errors := st.errors ++ pn.2 }
  match pn.1 with
  | none => (st, none)
  | some payeeNarration =>
      (st, some ⟨meta, date, Char.ofNat flag, payeeNarration.1,
        payeeNarration.2, tl.1, tl.2, r.1.postings⟩)

/-! ## Entry collection and finalize -/

/-- The lexicographic order on sort keys (date, kind priority, original
input position): strictly earlier date, or equal date and strictly smaller
kind priority, or both equal and input position no later. -/
def keyLE (a b : Nat × Int × Nat) : Prop :=
  a.1 < b.1 ∨ (a.1 = b.1 ∧ (a.2.1 < b.2.1 ∨ (a.2.1 = b.2.1 ∧ a.2.2 ≤ b.2.2)))

instance : DecidableRel keyLE := by
  intro a b
  unfold keyLE
  infer_instance

/-- The sort key of one input-position-annotated entry.  Modelled from the
spec: `data.entry_sortkey` lives outside the covered source, and the spec
defines the key as "(date, then a directive-kind priority, then original
input order as a final tie-break)"; the directive-kind priority table is
"supplied by a collaborator outside this core" and is a parameter. -/
def entryKey (priority : DirKind → Int) (ie : Nat × Directive) : Nat × Int × Nat :=
  (ie.2.date, priority ie.2.kind, ie.1)

/-- The entry order used by `finalize`: `keyLE` on the sort keys. -/
def entrySortLE (priority : DirKind → Int) (a b : Nat × Directive) : Prop :=
  keyLE (entryKey priority a) (entryKey priority b)

instance (rank : DirKind → Int) : DecidableRel (entrySortLE rank) := by
  intro a b
  unfold entrySortLE
  infer_instance

/-- `Builder.get_entries` (grammar.py lines 156-162): the accumulated
entries, sorted by the deterministic key.  The entries are annotated with
their input position, sorted by the full key with a stable insertion sort,
and the annotation is dropped. -/
def get_entries (priority : DirKind → Int) (entries : List Directive) :
    List Directive :=
  ((entries.enum).insertionSort (entrySortLE priority)).map Prod.snd

/-- `Builder.finalize` (grammar.py lines 141-154): the result triple of
sorted entries, errors and the option map.  (The weaving of the display
context into the options is outside the modelled core; no claim concerns
it.) -/
def finalize (priority : DirKind → Int) (st : BuilderState) :
    List Directive × List BErr × OptionStore :=
  (get_entries priority st.entries, st.errors, st.options)

end Builder

/-! ## Supporting lemmas -/

theorem postOption_options (st : BuilderState) (filename key : String) :
    (Builder.postOption st filename key).options = st.options := by
  unfold Builder.postOption
  split_ifs <;> rfl

theorem postOption_errors (st : BuilderState) (filename key : String) :
    (Builder.postOption st filename key).errors = st.errors := by
  unfold Builder.postOption
  split_ifs <;> rfl

theorem storeLookup_storeSet_self (m : OptionStore) (k : String) (v : PyVal) :
    storeLookup (storeSet m k v) k = some v := by
  induction m with
  | nil => simp [storeSet, storeLookup]
  | cons kv rest ih =>
      obtain ⟨k0, v0⟩ := kv
      by_cases h : k0 = k
      · simp [storeSet, storeLookup, h]
      · simp [storeSet, storeLookup, h, ih]

/-! ## Claims -/

/-- C7: applying an option whose key is absent from the option schema
appends exactly one semantic error (`Invalid option`) and leaves the
session state — in particular the option store — otherwise completely
unchanged. -/
theorem claim_C7_unknown_option_key (sch : OptionsSchema) (st : BuilderState)
    (filename : String) (lineno : Nat) (key : String) (value : PyVal)
    (h : storeLookup st.options key = none) :
    Builder.option sch st filename lineno key value =
      .ok { st with errors :=
        st.errors ++ [.invalidOption (new_metadata filename lineno []) key] } := by
  unfold Builder.option
  rw [h]
  rfl

/-- Witness for C7 at a concrete input. -/
theorem claim_C7_unknown_option_key_witness :
    storeLookup (BuilderState.mk [] [] [] "" []).options "no_such_option" = none ∧
    Builder.option ⟨fun _ => ⟨none, none, none⟩, []⟩ (BuilderState.mk [] [] [] "" [])
        "f.beancount" 3 "no_such_option" (.str "x") =
      .ok { BuilderState.mk [] [] [] "" [] with errors :=
        [.invalidOption (new_metadata "f.beancount" 3 []) "no_such_option"] } :=
  ⟨rfl, claim_C7_unknown_option_key _ _ _ _ _ _ rfl⟩

/-- C6: for a boolean-typed option key (reached directly, with no alias
redirection and no converter), a textual raw value stores `true` exactly
when the value lowercases to "true" or "on", or is the literal string "1";
every other string — including "0" — stores `false`; a native boolean raw
value is stored directly. -/
theorem claim_C6_boolean_option (sch : OptionsSchema) (st : BuilderState)
    (filename : String) (lineno : Nat) (key : String) (b0 : Bool)
    (hs : storeLookup st.options key = some (.bool b0))
    (hro : key ∉ sch.readOnly)
    (ha : (sch.descr key).aliasKey = none)
    (hc : (sch.descr key).converter = none) :
    (∀ s : String, ∃ st',
        Builder.option sch st filename lineno key (.str s) = .ok st' ∧
        storeLookup st'.options key =
          some (.bool ((pyLower s = "true" || pyLower s = "on") || s = "1")) ∧
        (storeLookup st'.options key = some (.bool true) ↔
          (pyLower s = "true" ∨ pyLower s = "on" ∨ s = "1"))) ∧
    (∀ b : Bool, ∃ st',
        Builder.option sch st filename lineno key (.bool b) = .ok st' ∧
        storeLookup st'.options key = some (.bool b)) := by
  constructor
  · intro s
    refine ⟨Builder.postOption { st with
        errors := st.errors ++ (match (sch.descr key).deprecated with
          | some msg => [.deprecatedOption (new_metadata filename lineno []) msg]
          | none => []),
        options := storeSet st.options key
          (.bool ((pyLower s = "true" || pyLower s = "on") || s = "1")) }
      filename key, ?_, ?_, ?_⟩
    · cases hdep : (sch.descr key).deprecated with
      | none => simp [Builder.option, hs, hro, ha, hc, hdep]
      | some msg => simp [Builder.option, hs, hro, ha, hc, hdep]
    · rw [postOption_options]
      exact storeLookup_storeSet_self _ _ _
    · rw [postOption_options]
      rw [storeLookup_storeSet_self]
      simp [or_assoc]
  · intro b
    refine ⟨Builder.postOption { st with
        errors := st.errors ++ (match (sch.descr key).deprecated with
          | some msg => [.deprecatedOption (new_metadata filename lineno []) msg]
          | none => []),
        options := storeSet st.options key (.bool b) }
      filename key, ?_, ?_⟩
    · cases hdep : (sch.descr key).deprecated with
      | none => simp [Builder.option, hs, hro, ha, hc, hdep]
      | some msg => simp [Builder.option, hs, hro, ha, hc, hdep]
    · rw [postOption_options]
      exact storeLookup_storeSet_self _ _ _

/-- Witness for C6: applying the textual value "TRUE" to a boolean-typed
key stores `true`. -/
theorem claim_C6_boolean_option_witness :
    ∃ st', Builder.option ⟨fun _ => ⟨none, none, none⟩, []⟩
        (BuilderState.mk [] [("render_commas", .bool false)] [] "" [])
        "f.beancount" 1 "render_commas" (.str "TRUE") = .ok st' ∧
      storeLookup st'.options "render_commas" =
        some (.bool ((pyLower "TRUE" = "true" || pyLower "TRUE" = "on") || "TRUE" = "1")) ∧
      (storeLookup st'.options "render_commas" = some (.bool true) ↔
        (pyLower "TRUE" = "true" ∨ pyLower "TRUE" = "on" ∨ "TRUE" = "1")) :=
  (claim_C6_boolean_option ⟨fun _ => ⟨none, none, none⟩, []⟩
    (BuilderState.mk [] [("render_commas", .bool false)] [] "" [])
    "f.beancount" 1 "render_commas" false rfl (by simp) rfl rfl).1 "TRUE"

/-- C1 (refuting the claim): applying an option whose stored value is
mapping-typed to a raw value that is not a (subkey, subvalue) pair does
not record an error and abort — unless the key's descriptor happens to be
deprecated, the Python local `meta` was never assigned on this path, and
the error-construction line itself raises `UnboundLocalError`, which
escapes `option()`'s boundary with nothing recorded and nothing mutated. -/
theorem claim_C1_mapping_option_raises (sch : OptionsSchema) (st : BuilderState)
    (filename : String) (lineno : Nat) (key : String) (value : PyVal)
    (xvs : List (PyVal × PyVal))
    (hs : storeLookup st.options key = some (.pydict xvs))
    (hro : key ∉ sch.readOnly)
    (hd : (sch.descr key).deprecated = none)
    (ha : (sch.descr key).aliasKey = none)
    (hc : (sch.descr key).converter = none)
    (hv : ∀ a b, value ≠ .tuple [a, b]) :
    Builder.option sch st filename lineno key value =
      .error (.unboundLocalError "meta") := by
  cases value with
  | tuple items =>
      match items with
      | [] => simp [Builder.option, hs, hro, ha, hc, hd]
      | [a] => simp [Builder.option, hs, hro, ha, hc, hd]
      | [a, b] => exact absurd rfl (hv a b)
      | a :: b :: c :: r => simp [Builder.option, hs, hro, ha, hc, hd]
  | pynone => simp [Builder.option, hs, hro, ha, hc, hd]
  | str s => simp [Builder.option, hs, hro, ha, hc, hd]
  | int n => simp [Builder.option, hs, hro, ha, hc, hd]
  | bool b => simp [Builder.option, hs, hro, ha, hc, hd]
  | date d => simp [Builder.option, hs, hro, ha, hc, hd]
  | booking b => simp [Builder.option, hs, hro, ha, hc, hd]
  | pylist xs => simp [Builder.option, hs, hro, ha, hc, hd]
  | pydict xs => simp [Builder.option, hs, hro, ha, hc, hd]

/-- Witness for C1's refutation at a concrete input: a mapping-typed,
non-deprecated key applied to the plain string "bad". -/
theorem claim_C1_mapping_option_raises_witness :
    Builder.option ⟨fun _ => ⟨none, none, none⟩, []⟩
        (BuilderState.mk [] [("inferred_tolerance_default", .pydict [])] [] "" [])
        "f.beancount" 7 "inferred_tolerance_default" (.str "bad") =
      .error (.unboundLocalError "meta") :=
  claim_C1_mapping_option_raises ⟨fun _ => ⟨none, none, none⟩, []⟩
    (BuilderState.mk [] [("inferred_tolerance_default", .pydict [])] [] "" [])
    "f.beancount" 7 "inferred_tolerance_default" (.str "bad") [] rfl (by simp)
    rfl rfl rfl (fun a b h => PyVal.noConfusion h)

/-- C2 (refuting the claim): the Document constructor never returns a
Document directive — the body reads the unbound name `tags_links` and
raises `NameError` on every call — even though the filename-resolution
step it performs first would resolve the relative name "a.pdf" against
source path "/x/y/main.txt" to the absolute path "/x/y/a.pdf" exactly as
the claim describes. -/
theorem claim_C2_document_raises :
    Builder.document (BuilderState.mk [] [] [] "" []) "/" "/x/y/main.txt" 5
        738000 "Assets:Cash" "a.pdf" [] [] [] = .error (.nameError "tags_links") ∧
    Builder.resolveDocumentFilename "/" "/x/y/main.txt" "a.pdf" = "/x/y/a.pdf" := by
  exact ⟨rfl, by decide⟩

/-- C8: booking resolution of the Open constructor: an absent (or empty,
hence falsy) booking token yields `booking = none` with no error; a token
naming a valid booking-method member yields that member with no error; an
invalid token substitutes the configured default booking method
(`self.options['booking_method']`) and records exactly one error, still
returning the Open directive. -/
theorem claim_C8_open_booking (st : BuilderState) (filename : String)
    (lineno : Nat) (date : Nat) (account : String)
    (currencies : Option (List String)) (kvlist : List KeyValue) :
    (Builder.openDirective st filename lineno date account currencies none kvlist =
        .ok (st, ⟨new_metadata filename lineno kvlist, date, account, currencies, none⟩)) ∧
    (∀ s b, Booking.fromName s = some b →
        Builder.openDirective st filename lineno date account currencies (some s) kvlist =
          .ok (st, ⟨new_metadata filename lineno kvlist, date, account, currencies,
            some (.booking b)⟩)) ∧
    (∀ s dflt, s ≠ "" → Booking.fromName s = none →
        storeLookup st.options "booking_method" = some dflt →
        Builder.openDirective st filename lineno date account currencies (some s) kvlist =
          .ok ({ st with errors := st.errors ++
              [.invalidBooking (new_metadata filename lineno kvlist) s
                ⟨new_metadata filename lineno kvlist, date, account, currencies, some dflt⟩] },
            ⟨new_metadata filename lineno kvlist, date, account, currencies, some dflt⟩)) := by
  refine ⟨rfl, ?_, ?_⟩
  · intro s b hb
    have hne : ¬ s = "" := by
      intro h
      rw [h] at hb
      exact Option.noConfusion hb
    simp [Builder.openDirective, hne, hb]
  · intro s dflt hne hb hd
    simp [Builder.openDirective, hne, hb, hd]

/-- Witness for C8: token "STRICT" resolves with zero errors; token
"NOTAREALMETHOD" resolves to the configured default and records exactly
one error. -/
theorem claim_C8_open_booking_witness :
    (Builder.openDirective
        (BuilderState.mk [] [("booking_method", .booking .STRICT)] [] "" [])
        "f.beancount" 2 738001 "Assets:Cash" none (some "STRICT") [] =
      .ok (BuilderState.mk [] [("booking_method", .booking .STRICT)] [] "" [],
        ⟨new_metadata "f.beancount" 2 [], 738001, "Assets:Cash", none,
          some (.booking .STRICT)⟩)) ∧
    (Builder.openDirective
        (BuilderState.mk [] [("booking_method", .booking .STRICT)] [] "" [])
        "f.beancount" 2 738001 "Assets:Cash" none (some "NOTAREALMETHOD") [] =
      .ok ({ BuilderState.mk [] [("booking_method", .booking .STRICT)] [] "" [] with
          errors := [.invalidBooking (new_metadata "f.beancount" 2 []) "NOTAREALMETHOD"
            ⟨new_metadata "f.beancount" 2 [], 738001, "Assets:Cash", none,
              some (.booking .STRICT)⟩] },
        ⟨new_metadata "f.beancount" 2 [], 738001, "Assets:Cash", none,
          some (.booking .STRICT)⟩)) :=
  ⟨(claim_C8_open_booking _ "f.beancount" 2 738001 "Assets:Cash" none []).2.1
      "STRICT" .STRICT rfl,
   (claim_C8_open_booking _ "f.beancount" 2 738001 "Assets:Cash" none []).2.2
      "NOTAREALMETHOD" (.booking .STRICT) (by decide) rfl rfl⟩

/-- C5: descriptor-string unpacking: no list or an empty list yields
(no payee, empty narration); one string becomes the narration; two strings
become (payee, narration); more than two records exactly one error and
makes the transaction build return `none`, dropping the whole
transaction. -/
theorem claim_C5_descriptor_strings (st : BuilderState) (filename : String)
    (lineno date flag : Nat) (tags links : List String)
    (items : Option (List Builder.TxnItem)) (am : MetaMap) (meta : MetaMap) :
    (Builder.unpack_txn_strings none meta = (some (none, ""), [])) ∧
    (Builder.unpack_txn_strings (some []) meta = (some (none, ""), [])) ∧
    (∀ n, Builder.unpack_txn_strings (some [n]) meta = (some (none, n), [])) ∧
    (∀ p n, Builder.unpack_txn_strings (some [p, n]) meta = (some (some p, n), [])) ∧
    (∀ l, 2 < l.length →
      Builder.unpack_txn_strings (some l) meta = (none, [.tooManyStrings meta l])) ∧
    (∀ l, 2 < l.length →
      Builder.transaction st filename lineno date flag (some l) tags links items am =
        ({ st with errors := st.errors ++
            (Builder.txnRunCore (new_metadata filename lineno []) ⟨[], [], tags, links⟩
              (items.getD [])).2 ++
            [.tooManyStrings
              (dictUpdate (dictUpdate (new_metadata filename lineno []) am)
                (Builder.txnRunCore (new_metadata filename lineno [])
                  ⟨[], [], tags, links⟩ (items.getD [])).1.explicit_meta) l] },
          none)) := by
  refine ⟨rfl, rfl, fun n => rfl, fun p n => rfl, ?_, ?_⟩
  · intro l hl
    rcases l with _ | ⟨a, _ | ⟨b, _ | ⟨c, r⟩⟩⟩
    · exact absurd hl (by decide)
    · exact absurd hl (by simp)
    · exact absurd hl (by simp)
    · rfl
  · intro l hl
    rcases l with _ | ⟨a, _ | ⟨b, _ | ⟨c, r⟩⟩⟩
    · exact absurd hl (by decide)
    · exact absurd hl (by simp)
    · exact absurd hl (by simp)
    · simp [Builder.transaction, Builder.unpack_txn_strings]

/-- Witness for C5: three descriptor strings drop the transaction with one
error. -/
theorem claim_C5_descriptor_strings_witness :
    Builder.transaction (BuilderState.mk [] [] [] "" []) "f.beancount" 1 738002 42
        (some ["a", "b", "c"]) [] [] none [] =
      ({ BuilderState.mk [] [] [] "" [] with errors :=
          [.tooManyStrings (new_metadata "f.beancount" 1 []) ["a", "b", "c"]] },
        none) := by
  have h := (claim_C5_descriptor_strings (BuilderState.mk [] [] [] "" [])
      "f.beancount" 1 738002 42 [] [] none [] (new_metadata "f.beancount" 1 [])
      ).2.2.2.2.2 ["a", "b", "c"] (by decide)
  simpa using h

/-- C10: calling the transaction builder with the `None` sentinel for the
descriptor strings behaves exactly as an empty list: the call returns the
very same result, the built Transaction has no payee and empty narration,
and no descriptor-string error is recorded (the error list grows only by
whatever the item loop contributed). -/
theorem claim_C10_none_descriptor_strings (st : BuilderState)
    (filename : String) (lineno date flag : Nat) (tags links : List String)
    (items : Option (List Builder.TxnItem)) (am : MetaMap) :
    Builder.transaction st filename lineno date flag none tags links items am =
      Builder.transaction st filename lineno date flag (some []) tags links items am ∧
    ∃ st' txn,
      Builder.transaction st filename lineno date flag none tags links items am =
        (st', some txn) ∧
      txn.payee = none ∧ txn.narration = "" ∧
      st'.errors = st.errors ++
        (Builder.txnRunCore (new_metadata filename lineno []) ⟨[], [], tags, links⟩
          (items.getD [])).2 := by
  refine ⟨rfl, _, _, rfl, rfl, rfl, by simp [Builder.transaction, Builder.unpack_txn_strings]⟩

instance (rank : DirKind → Int) :
    IsTotal (Nat × Directive) (Builder.entrySortLE rank) :=
  ⟨fun a b => by unfold Builder.entrySortLE Builder.keyLE; omega⟩

instance (rank : DirKind → Int) :
    IsTrans (Nat × Directive) (Builder.entrySortLE rank) :=
  ⟨fun a b c => by unfold Builder.entrySortLE Builder.keyLE; omega⟩

/-- C9: `finalize` returns the accumulated entries sorted by the
deterministic key — date ascending, ties broken by directive-kind
priority, remaining ties by original input position — as a permutation of
the input, and the result depends only on the accumulated entries (hence
is reproducible across repeated runs on identical input). -/
theorem claim_C9_finalize_sorted (rank : DirKind → Int) (st : BuilderState) :
    (Builder.finalize rank st).1 =
      ((st.entries.enum).insertionSort (Builder.entrySortLE rank)).map Prod.snd ∧
    List.Sorted (Builder.entrySortLE rank)
      ((st.entries.enum).insertionSort (Builder.entrySortLE rank)) ∧
    List.Perm (Builder.finalize rank st).1 st.entries ∧
    (∀ st₂ : BuilderState, st.entries = st₂.entries →
      (Builder.finalize rank st).1 = (Builder.finalize rank st₂).1) := by
  refine ⟨rfl, List.sorted_insertionSort _ _, ?_, ?_⟩
  · have h1 : ((st.entries.enum).insertionSort (Builder.entrySortLE rank)).map Prod.snd
        |>.Perm ((st.entries.enum).map Prod.snd) :=
      (List.perm_insertionSort _ _).map _
    simpa [Builder.finalize, Builder.get_entries, List.enum_map_snd] using h1
  · intro st₂ h
    simp [Builder.finalize, Builder.get_entries, h]

/-- Witness for C9 at a concrete input: two close directives with
descending dates come back sorted and as a permutation of the input. -/
theorem claim_C9_finalize_sorted_witness :
    List.Sorted (Builder.entrySortLE (fun _ => 0))
      ((([Directive.close ⟨[], 5, "Assets:A"⟩,
          Directive.close ⟨[], 3, "Assets:B"⟩].enum).insertionSort
        (Builder.entrySortLE (fun _ => 0)))) ∧
    List.Perm
      (Builder.finalize (fun _ => 0)
        (BuilderState.mk [Directive.close ⟨[], 5, "Assets:A"⟩,
          Directive.close ⟨[], 3, "Assets:B"⟩] [] [] "" [])).1
      [Directive.close ⟨[], 5, "Assets:A"⟩, Directive.close ⟨[], 3, "Assets:B"⟩] :=
  ⟨(claim_C9_finalize_sorted (fun _ => 0)
      (BuilderState.mk [Directive.close ⟨[], 5, "Assets:A"⟩,
        Directive.close ⟨[], 3, "Assets:B"⟩] [] [] "" [])).2.1,
   (claim_C9_finalize_sorted (fun _ => 0)
      (BuilderState.mk [Directive.close ⟨[], 5, "Assets:A"⟩,
        Directive.close ⟨[], 3, "Assets:B"⟩] [] [] "" [])).2.2.1⟩

/-! ## Dictionary lemmas for the metadata claims -/

theorem dictLookup_append (m l : MetaMap) (k : String) :
    dictLookup (m ++ l) k =
      (match dictLookup m k with
       | some v => some v
       | none => dictLookup l k) := by
  induction m with
  | nil => simp [dictLookup]
  | cons kv rest ih =>
      obtain ⟨k0, v0⟩ := kv
      by_cases h : k0 = k
      · simp [dictLookup, h]
      · simp [dictLookup, h, ih]

theorem dictLookup_dictSet_self (m : MetaMap) (k : String) (v : PyObj) :
    dictLookup (dictSet m k v) k = some v := by
  induction m with
  | nil => simp [dictSet, dictLookup]
  | cons kv rest ih =>
      obtain ⟨k0, v0⟩ := kv
      by_cases h : k0 = k
      · simp [dictSet, dictLookup, h]
      · simp [dictSet, dictLookup, h, ih]

theorem dictLookup_dictSet_ne (m : MetaMap) (k' k : String) (v : PyObj)
    (h : k' ≠ k) : dictLookup (dictSet m k' v) k = dictLookup m k := by
  induction m with
  | nil => simp [dictSet, dictLookup, h]
  | cons kv rest ih =>
      obtain ⟨k0, v0⟩ := kv
      by_cases h0 : k0 = k'
      · subst h0
        simp [dictSet, dictLookup, h]
      · simp [dictSet, dictLookup, h0, ih]

theorem dictLookup_dictUpdate_not_mem (m src : MetaMap) (k : String)
    (h : ∀ v, (k, v) ∉ src) :
    dictLookup (dictUpdate m src) k = dictLookup m k := by
  induction src generalizing m with
  | nil => rfl
  | cons kv rest ih =>
      obtain ⟨k0, v0⟩ := kv
      have hk0 : k0 ≠ k := by
        intro hEq
        exact h v0 (by simp [hEq])
      have hrest : ∀ v, (k, v) ∉ rest := fun v hv => h v (List.mem_cons_of_mem _ hv)
      calc dictLookup (dictUpdate (dictSet m k0 v0) rest) k
      _ = dictLookup (dictSet m k0 v0) k := ih _ hrest
      _ = dictLookup m k := dictLookup_dictSet_ne _ _ _ _ hk0

theorem dictLookup_none_not_mem (m : MetaMap) (k : String)
    (h : dictLookup m k = none) : ∀ v, (k, v) ∉ m := by
  induction m with
  | nil => simp
  | cons kv rest ih =>
      obtain ⟨k0, v0⟩ := kv
      by_cases h0 : k0 = k
      · rw [dictLookup, if_pos h0] at h
        exact Option.noConfusion h
      · rw [dictLookup, if_neg h0] at h
        intro v hv
        rcases List.mem_cons.mp hv with hEq | hMem
        · injection hEq with h1 h2
          exact h0 h1.symm
        · exact ih h v hMem

/-- Update with a unique-keyed source: a key bound in the source keeps its
source binding. -/
theorem dictLookup_dictUpdate_of_some (m src : MetaMap) (k : String) (v : PyObj)
    (hnd : (src.map Prod.fst).Nodup) (h : dictLookup src k = some v) :
    dictLookup (dictUpdate m src) k = some v := by
  induction src generalizing m with
  | nil => simp [dictLookup] at h
  | cons kv rest ih =>
      obtain ⟨k0, v0⟩ := kv
      rw [List.map_cons, List.nodup_cons] at hnd
      by_cases h0 : k0 = k
      · subst h0
        rw [dictLookup, if_pos rfl] at h
        have hv : v0 = v := Option.some.inj h
        have hrest : ∀ w, (k0, w) ∉ rest := by
          intro w hw
          exact hnd.1 (List.mem_map.mpr ⟨(k0, w), hw, rfl⟩)
        show dictLookup (dictUpdate (dictSet m k0 v0) rest) k0 = some v
        rw [dictLookup_dictUpdate_not_mem _ _ _ hrest, dictLookup_dictSet_self, hv]
      · rw [dictLookup, if_neg h0] at h
        show dictLookup (dictUpdate (dictSet m k0 v0) rest) k = some v
        exact ih _ hnd.2 h

theorem dictSetdefault_fst_ne (m : MetaMap) (k' k : String) (v : PyObj)
    (h : k' ≠ k) :
    dictLookup (dictSetdefault m k' v).1 k = dictLookup m k := by
  unfold dictSetdefault
  cases hl : dictLookup m k' with
  | some v0 => rfl
  | none =>
      show dictLookup (m ++ [(k', v)]) k = dictLookup m k
      rw [dictLookup_append]
      cases dictLookup m k with
      | some w => rfl
      | none => simp [dictLookup, h]

theorem dictSetdefault_none (m : MetaMap) (k : String) (v : PyObj)
    (h : dictLookup m k = none) :
    dictSetdefault m k v = (m ++ [(k, v)], v) := by
  unfold dictSetdefault
  rw [h]

theorem dictSetdefault_some (m : MetaMap) (k : String) (v v0 : PyObj)
    (h : dictLookup m k = some v0) :
    dictSetdefault m k v = (m, v0) := by
  unfold dictSetdefault
  rw [h]

theorem dictLookup_setdefault_append (m : MetaMap) (k : String) (v : PyObj)
    (h : dictLookup m k = none) :
    dictLookup (m ++ [(k, v)]) k = some v := by
  rw [dictLookup_append, h]
  simp [dictLookup]

theorem dictSetdefault_keys_nodup (m : MetaMap) (k : String) (v : PyObj)
    (h : (m.map Prod.fst).Nodup) :
    (((dictSetdefault m k v).1).map Prod.fst).Nodup := by
  unfold dictSetdefault
  cases hl : dictLookup m k with
  | some v0 => exact h
  | none =>
      have hnm : k ∉ m.map Prod.fst := by
        intro hmem
        obtain ⟨⟨k1, w⟩, hw, hEq⟩ := List.mem_map.mp hmem
        subst hEq
        exact absurd hw (dictLookup_none_not_mem m _ hl w)
      simpa using List.Nodup.append h (by simp) (by simpa using hnm)

/-! ## Transaction-loop lemmas -/

/-- Is this error a duplicate-metadata error for key `k` (in either
scope)? -/
def isDupErrFor (k : String) : BErr → Bool
  | .duplicateEntryMeta _ kv => kv.key == k
  | .duplicatePostingMeta _ kv => kv.key == k
  | _ => false

theorem txnRunCore_append (meta : MetaMap) (sc : Builder.TxnScratch)
    (a b : List Builder.TxnItem) :
    Builder.txnRunCore meta sc (a ++ b) =
      ((Builder.txnRunCore meta (Builder.txnRunCore meta sc a).1 b).1,
        (Builder.txnRunCore meta sc a).2 ++
          (Builder.txnRunCore meta (Builder.txnRunCore meta sc a).1 b).2) := by
  induction a generalizing sc with
  | nil => simp [Builder.txnRunCore]
  | cons it rest ih => simp [Builder.txnRunCore, ih]

theorem txnStepCore_not_kv_k (meta : MetaMap) (sc : Builder.TxnScratch)
    (k : String) (it : Builder.TxnItem)
    (h : ∀ v, it ≠ .keyValue ⟨k, v⟩) :
    List.countP (isDupErrFor k) (Builder.txnStepCore meta sc it).2 = 0 := by
  cases it with
  | posting p => simp [Builder.txnStepCore]
  | tagsLinks tl =>
      by_cases hp : sc.postings.isEmpty <;>
        simp [Builder.txnStepCore, hp, isDupErrFor]
  | keyValue kv =>
      obtain ⟨key, value⟩ := kv
      have hk : key ≠ k := fun hEq => h value (by rw [hEq])
      cases hl : sc.postings.getLast? with
      | none =>
          by_cases hdup : (dictSetdefault sc.explicit_meta key value).2.isNot value <;>
            simp [Builder.txnStepCore, hl, hdup, isDupErrFor, hk]
      | some lastP =>
          by_cases hdup : (dictSetdefault (lastP.meta.getD []) key value).2.isNot value <;>
            simp [Builder.txnStepCore, hl, hdup, isDupErrFor, hk]

theorem txnRunCore_countP_zero (meta : MetaMap) (k : String)
    (items : List Builder.TxnItem) :
    ∀ sc : Builder.TxnScratch,
    (∀ v, Builder.TxnItem.keyValue ⟨k, v⟩ ∉ items) →
    List.countP (isDupErrFor k) (Builder.txnRunCore meta sc items).2 = 0 := by
  induction items with
  | nil => intro sc _; simp [Builder.txnRunCore]
  | cons it rest ih =>
      intro sc h
      have h1 : ∀ v, it ≠ Builder.TxnItem.keyValue ⟨k, v⟩ := by
        intro v hEq
        exact h v (by rw [hEq]; exact List.mem_cons_self _ _)
      have h2 : ∀ v, Builder.TxnItem.keyValue ⟨k, v⟩ ∉ rest :=
        fun v hv => h v (List.mem_cons_of_mem _ hv)
      simp [Builder.txnRunCore, List.countP_append,
        txnStepCore_not_kv_k meta sc k it h1, ih _ h2]

theorem txnRunCore_postings_nil (meta : MetaMap) (items : List Builder.TxnItem) :
    ∀ sc, sc.postings = [] → (∀ p, Builder.TxnItem.posting p ∉ items) →
    (Builder.txnRunCore meta sc items).1.postings = [] := by
  induction items with
  | nil => intro sc hp _; simpa [Builder.txnRunCore] using hp
  | cons it rest ih =>
      intro sc hp h
      have h2 : ∀ p, Builder.TxnItem.posting p ∉ rest :=
        fun p hv => h p (List.mem_cons_of_mem _ hv)
      cases it with
      | posting p => exact absurd (List.mem_cons_self _ _) (h p)
      | tagsLinks tl =>
          exact ih (Builder.txnStepCore meta sc (.tagsLinks tl)).1
            (by simp [Builder.txnStepCore, hp]) h2
      | keyValue kv =>
          refine ih (Builder.txnStepCore meta sc (.keyValue kv)).1 ?_ h2
          simp only [Builder.txnStepCore, hp, List.getLast?]
          split <;> rfl

theorem txnRunCore_explicit_lookup (meta : MetaMap) (k : String)
    (items : List Builder.TxnItem) :
    ∀ sc, (∀ v, Builder.TxnItem.keyValue ⟨k, v⟩ ∉ items) →
    dictLookup (Builder.txnRunCore meta sc items).1.explicit_meta k =
      dictLookup sc.explicit_meta k := by
  induction items with
  | nil => intro sc _; simp [Builder.txnRunCore]
  | cons it rest ih =>
      intro sc h
      have h2 : ∀ v, Builder.TxnItem.keyValue ⟨k, v⟩ ∉ rest :=
        fun v hv => h v (List.mem_cons_of_mem _ hv)
      have hstep : dictLookup (Builder.txnStepCore meta sc it).1.explicit_meta k =
          dictLookup sc.explicit_meta k := by
        cases it with
        | posting p => simp [Builder.txnStepCore]
        | tagsLinks tl =>
            by_cases hp : sc.postings.isEmpty <;> simp [Builder.txnStepCore, hp]
        | keyValue kv =>
            obtain ⟨key, value⟩ := kv
            have hk : key ≠ k := by
              intro hEq
              exact h value (by rw [hEq]; exact List.mem_cons_self _ _)
            cases hl : sc.postings.getLast? with
            | none =>
                by_cases hdup :
                    (dictSetdefault sc.explicit_meta key value).2.isNot value <;>
                  simp [Builder.txnStepCore, hl, hdup,
                    dictSetdefault_fst_ne _ _ _ _ hk]
            | some lastP =>
                by_cases hdup :
                    (dictSetdefault (lastP.meta.getD []) key value).2.isNot value <;>
                  simp [Builder.txnStepCore, hl, hdup]
      calc dictLookup (Builder.txnRunCore meta sc (it :: rest)).1.explicit_meta k
      _ = dictLookup (Builder.txnRunCore meta
            (Builder.txnStepCore meta sc it).1 rest).1.explicit_meta k := rfl
      _ = dictLookup (Builder.txnStepCore meta sc it).1.explicit_meta k := ih _ h2
      _ = dictLookup sc.explicit_meta k := hstep

theorem txnRunCore_explicit_nodup (meta : MetaMap)
    (items : List Builder.TxnItem) :
    ∀ sc, (sc.explicit_meta.map Prod.fst).Nodup →
    (((Builder.txnRunCore meta sc items).1.explicit_meta).map Prod.fst).Nodup := by
  induction items with
  | nil => intro sc h; simpa [Builder.txnRunCore] using h
  | cons it rest ih =>
      intro sc h
      refine ih (Builder.txnStepCore meta sc it).1 ?_
      cases it with
      | posting p => simpa [Builder.txnStepCore] using h
      | tagsLinks tl =>
          by_cases hp : sc.postings.isEmpty <;>
            simp [Builder.txnStepCore, hp] <;> exact h
      | keyValue kv =>
          obtain ⟨key, value⟩ := kv
          cases hl : sc.postings.getLast? with
          | none =>
              by_cases hdup :
                  (dictSetdefault sc.explicit_meta key value).2.isNot value <;>
                simp [Builder.txnStepCore, hl, hdup] <;>
                exact dictSetdefault_keys_nodup _ _ _ h
          | some lastP =>
              by_cases hdup :
                  (dictSetdefault (lastP.meta.getD []) key value).2.isNot value <;>
                simp [Builder.txnStepCore, hl, hdup] <;> exact h

theorem setUpdate_mem (src : List String) :
    ∀ s t, t ∈ s → t ∈ Builder.setUpdate s src := by
  induction src with
  | nil => exact fun s t h => h
  | cons x rest ih =>
      intro s t h
      show t ∈ Builder.setUpdate (if x ∈ s then s else s ++ [x]) rest
      by_cases hx : x ∈ s
      · rw [if_pos hx]
        exact ih s t h
      · rw [if_neg hx]
        exact ih (s ++ [x]) t (List.mem_append_left _ h)

theorem txnRunCore_tags_mem (meta : MetaMap) (items : List Builder.TxnItem) :
    ∀ sc t, t ∈ sc.tags → t ∈ (Builder.txnRunCore meta sc items).1.tags := by
  induction items with
  | nil => intro sc t h; simpa [Builder.txnRunCore] using h
  | cons it rest ih =>
      intro sc t h
      refine ih (Builder.txnStepCore meta sc it).1 t ?_
      cases it with
      | posting p => simpa [Builder.txnStepCore] using h
      | tagsLinks tl =>
          by_cases hp : sc.postings.isEmpty <;>
            simp [Builder.txnStepCore, hp]
          · exact setUpdate_mem _ _ _ h
          · exact h
      | keyValue kv =>
          cases hl : sc.postings.getLast? <;>
            simp only [Builder.txnStepCore, hl] <;> split <;> exact h

theorem txnRunCore_links_mem (meta : MetaMap) (items : List Builder.TxnItem) :
    ∀ sc t, t ∈ sc.links → t ∈ (Builder.txnRunCore meta sc items).1.links := by
  induction items with
  | nil => intro sc t h; simpa [Builder.txnRunCore] using h
  | cons it rest ih =>
      intro sc t h
      refine ih (Builder.txnStepCore meta sc it).1 t ?_
      cases it with
      | posting p => simpa [Builder.txnStepCore] using h
      | tagsLinks tl =>
          by_cases hp : sc.postings.isEmpty <;>
            simp [Builder.txnStepCore, hp]
          · exact setUpdate_mem _ _ _ h
          · exact h
      | keyValue kv =>
          cases hl : sc.postings.getLast? <;>
            simp only [Builder.txnStepCore, hl] <;> split <;> exact h

/-- Processing a suffix never disturbs a posting that is no longer the
last one: if the loop state's postings end with `q`, the final postings
keep the same prefix and a slot `q'` whose metadata agrees with `q`'s at
every key not touched by a later key-value. -/
theorem txnRunCore_last_meta (meta : MetaMap) (k : String)
    (items : List Builder.TxnItem) :
    ∀ sc qs q, sc.postings = qs ++ [q] →
    (∀ v, Builder.TxnItem.keyValue ⟨k, v⟩ ∉ items) →
    ∃ q' rest,
      (Builder.txnRunCore meta sc items).1.postings = qs ++ q' :: rest ∧
      dictLookup (q'.meta.getD []) k = dictLookup (q.meta.getD []) k := by
  induction items with
  | nil =>
      intro sc qs q hp _
      exact ⟨q, [], by simp [Builder.txnRunCore, hp], rfl⟩
  | cons it rest ih =>
      intro sc qs q hp h
      have h2 : ∀ v, Builder.TxnItem.keyValue ⟨k, v⟩ ∉ rest :=
        fun v hv => h v (List.mem_cons_of_mem _ hv)
      cases it with
      | posting p =>
          have hp' : (Builder.txnStepCore meta sc (.posting p)).1.postings =
              (qs ++ [q]) ++ [p] := by
            simp [Builder.txnStepCore, hp]
          obtain ⟨p', r', hr, _⟩ := ih _ _ _ hp' h2
          refine ⟨q, p' :: r', ?_, rfl⟩
          show (Builder.txnRunCore meta
            (Builder.txnStepCore meta sc (.posting p)).1 rest).1.postings = _
          rw [hr]
          simp
      | tagsLinks tl =>
          have hne : ¬ sc.postings.isEmpty = true := by simp [hp]
          have hp' : (Builder.txnStepCore meta sc (.tagsLinks tl)).1.postings =
              qs ++ [q] := by
            simp [Builder.txnStepCore, hne, hp]
          exact ih _ _ _ hp' h2
      | keyValue kv =>
          obtain ⟨key, value⟩ := kv
          have hk : key ≠ k := by
            intro hEq
            exact h value (by rw [hEq]; exact List.mem_cons_self _ _)
          obtain ⟨q2, hq2⟩ : ∃ q2 : Posting,
              q2 = { q with
                meta := some (dictSetdefault (q.meta.getD []) key value).1 } := ⟨_, rfl⟩
          have hlast : sc.postings.getLast? = some q := by
            rw [hp]; exact List.getLast?_concat _
          have hdl : sc.postings.dropLast = qs := by
            rw [hp]; exact List.dropLast_concat ..
          have hp' : (Builder.txnStepCore meta sc
              (.keyValue ⟨key, value⟩)).1.postings = qs ++ [q2] := by
            simp only [Builder.txnStepCore, hlast, hdl]
            split <;> rw [hq2]
          obtain ⟨q', r', hr, hlook⟩ := ih _ _ _ hp' h2
          refine ⟨q', r', hr, ?_⟩
          rw [hlook, hq2]
          show dictLookup ((dictSetdefault (q.meta.getD []) key value).1) k = _
          exact dictSetdefault_fst_ne _ _ _ _ hk

theorem txnRunCore_cons (meta : MetaMap) (sc : Builder.TxnScratch)
    (it : Builder.TxnItem) (rest : List Builder.TxnItem) :
    Builder.txnRunCore meta sc (it :: rest) =
      ((Builder.txnRunCore meta (Builder.txnStepCore meta sc it).1 rest).1,
        (Builder.txnStepCore meta sc it).2 ++
          (Builder.txnRunCore meta (Builder.txnStepCore meta sc it).1 rest).2) :=
  rfl

theorem txnStepCore_tagsLinks_nonempty (meta : MetaMap)
    (sc : Builder.TxnScratch) (tl : TagsLinks) (h : sc.postings ≠ []) :
    Builder.txnStepCore meta sc (.tagsLinks tl) =
      (sc, [.tagsLinksAfterPosting meta tl.tags tl.links]) := by
  have h' : ¬ sc.postings.isEmpty = true := by
    simpa [List.isEmpty_iff] using h
  simp [Builder.txnStepCore, h']

theorem txnStepCore_tagsLinks_empty (meta : MetaMap)
    (sc : Builder.TxnScratch) (tl : TagsLinks) (h : sc.postings = []) :
    Builder.txnStepCore meta sc (.tagsLinks tl) =
      ({ sc with tags := Builder.setUpdate sc.tags tl.tags,
                 links := Builder.setUpdate sc.links tl.links }, []) := by
  simp [Builder.txnStepCore, h]

theorem txnRunCore_postings_ne_nil (meta : MetaMap)
    (items : List Builder.TxnItem) :
    ∀ sc, sc.postings ≠ [] →
    (Builder.txnRunCore meta sc items).1.postings ≠ [] := by
  induction items with
  | nil => intro sc h; simpa [Builder.txnRunCore] using h
  | cons it rest ih =>
      intro sc h
      refine ih (Builder.txnStepCore meta sc it).1 ?_
      cases it with
      | posting p => simp [Builder.txnStepCore]
      | tagsLinks tl =>
          by_cases hp : sc.postings.isEmpty <;>
            simp [Builder.txnStepCore, hp] <;> exact h
      | keyValue kv =>
          cases hl : sc.postings.getLast? with
          | none => simp only [Builder.txnStepCore, hl]; split <;> exact h
          | some lastP => simp only [Builder.txnStepCore, hl]; split <;> simp

theorem txnRunCore_mem_posting_ne_nil (meta : MetaMap)
    (items : List Builder.TxnItem) :
    ∀ sc (p : Posting), Builder.TxnItem.posting p ∈ items →
    (Builder.txnRunCore meta sc items).1.postings ≠ [] := by
  induction items with
  | nil => intro sc p h; cases h
  | cons it rest ih =>
      intro sc p h
      rcases List.mem_cons.mp h with hEq | hMem
      · subst hEq
        refine txnRunCore_postings_ne_nil meta rest _ ?_
        simp [Builder.txnStepCore]
      · exact ih _ p hMem

theorem finalize_tags_links_eq (t l : List String) :
    Builder.finalize_tags_links t l = (t, l) := by
  unfold Builder.finalize_tags_links
  cases ht : t.isEmpty <;> cases hl : l.isEmpty <;>
    simp_all [List.isEmpty_iff]

theorem setUpdate_mem_src (src : List String) :
    ∀ s t, t ∈ src → t ∈ Builder.setUpdate s src := by
  induction src with
  | nil => intro s t h; cases h
  | cons x rest ih =>
      intro s t h
      show t ∈ Builder.setUpdate (if x ∈ s then s else s ++ [x]) rest
      rcases List.mem_cons.mp h with rfl | hMem
      · by_cases hx : t ∈ s
        · rw [if_pos hx]
          exact setUpdate_mem rest _ t hx
        · rw [if_neg hx]
          exact setUpdate_mem rest _ t (by simp)
      · by_cases hx : x ∈ s
        · rw [if_pos hx]
          exact ih s t hMem
        · rw [if_neg hx]
          exact ih _ t hMem

/-- C4: a TagsLinks bundle appearing after at least one Posting is
discarded with exactly one error: the loop result equals the run of the
same sequence with the bundle removed, except for the single
`tagsLinksAfterPosting` error inserted at the bundle's place, and the same
Transaction value is built; a bundle before the first Posting merges its
tags and links into the transaction-level sets with no error, and they
reach the built Transaction. -/
theorem claim_C4_tags_links_placement (st : BuilderState) (filename : String)
    (lineno date flag : Nat) (tags links : List String) (am : MetaMap)
    (pre post : List Builder.TxnItem) (tl : TagsLinks) :
    ((∃ p, Builder.TxnItem.posting p ∈ pre) →
      Builder.txnRunCore (new_metadata filename lineno []) ⟨[], [], tags, links⟩
          (pre ++ Builder.TxnItem.tagsLinks tl :: post) =
        ((Builder.txnRunCore (new_metadata filename lineno [])
            (Builder.txnRunCore (new_metadata filename lineno [])
              ⟨[], [], tags, links⟩ pre).1 post).1,
          (Builder.txnRunCore (new_metadata filename lineno [])
            ⟨[], [], tags, links⟩ pre).2 ++
            BErr.tagsLinksAfterPosting (new_metadata filename lineno [])
              tl.tags tl.links ::
            (Builder.txnRunCore (new_metadata filename lineno [])
              (Builder.txnRunCore (new_metadata filename lineno [])
                ⟨[], [], tags, links⟩ pre).1 post).2) ∧
      (Builder.txnRunCore (new_metadata filename lineno []) ⟨[], [], tags, links⟩
          (pre ++ post)).1 =
        (Builder.txnRunCore (new_metadata filename lineno [])
          (Builder.txnRunCore (new_metadata filename lineno [])
            ⟨[], [], tags, links⟩ pre).1 post).1 ∧
      (Builder.transaction st filename lineno date flag none tags links
          (some (pre ++ Builder.TxnItem.tagsLinks tl :: post)) am).2 =
        (Builder.transaction st filename lineno date flag none tags links
          (some (pre ++ post)) am).2 ∧
      (Builder.transaction st filename lineno date flag none tags links
          (some (pre ++ Builder.TxnItem.tagsLinks tl :: post)) am).1.errors =
        st.errors ++
          (Builder.txnRunCore (new_metadata filename lineno [])
            ⟨[], [], tags, links⟩ pre).2 ++
          BErr.tagsLinksAfterPosting (new_metadata filename lineno [])
            tl.tags tl.links ::
          (Builder.txnRunCore (new_metadata filename lineno [])
            (Builder.txnRunCore (new_metadata filename lineno [])
              ⟨[], [], tags, links⟩ pre).1 post).2) ∧
    ((∀ p, Builder.TxnItem.posting p ∉ pre) →
      (Builder.txnRunCore (new_metadata filename lineno []) ⟨[], [], tags, links⟩
          (pre ++ Builder.TxnItem.tagsLinks tl :: post)).2 =
        (Builder.txnRunCore (new_metadata filename lineno [])
            ⟨[], [], tags, links⟩ pre).2 ++
          (Builder.txnRunCore (new_metadata filename lineno [])
            (Builder.txnStepCore (new_metadata filename lineno [])
              (Builder.txnRunCore (new_metadata filename lineno [])
                ⟨[], [], tags, links⟩ pre).1 (.tagsLinks tl)).1 post).2 ∧
      (∀ t ∈ tl.tags, t ∈
        (Builder.txnRunCore (new_metadata filename lineno [])
          ⟨[], [], tags, links⟩
          (pre ++ Builder.TxnItem.tagsLinks tl :: post)).1.tags) ∧
      (∀ t ∈ tl.links, t ∈
        (Builder.txnRunCore (new_metadata filename lineno [])
          ⟨[], [], tags, links⟩
          (pre ++ Builder.TxnItem.tagsLinks tl :: post)).1.links) ∧
      ∃ txn, (Builder.transaction st filename lineno date flag none tags links
          (some (pre ++ Builder.TxnItem.tagsLinks tl :: post)) am).2 = some txn ∧
        txn.tags =
          (Builder.txnRunCore (new_metadata filename lineno [])
            ⟨[], [], tags, links⟩
            (pre ++ Builder.TxnItem.tagsLinks tl :: post)).1.tags ∧
        txn.links =
          (Builder.txnRunCore (new_metadata filename lineno [])
            ⟨[], [], tags, links⟩
            (pre ++ Builder.TxnItem.tagsLinks tl :: post)).1.links) := by
  constructor
  · rintro ⟨p, hp⟩
    have hne := txnRunCore_mem_posting_ne_nil (new_metadata filename lineno [])
      pre ⟨[], [], tags, links⟩ p hp
    have hstep := txnStepCore_tagsLinks_nonempty (new_metadata filename lineno [])
      (Builder.txnRunCore (new_metadata filename lineno [])
        ⟨[], [], tags, links⟩ pre).1 tl hne
    have hrun : Builder.txnRunCore (new_metadata filename lineno [])
        ⟨[], [], tags, links⟩ (pre ++ Builder.TxnItem.tagsLinks tl :: post) =
        ((Builder.txnRunCore (new_metadata filename lineno [])
            (Builder.txnRunCore (new_metadata filename lineno [])
              ⟨[], [], tags, links⟩ pre).1 post).1,
          (Builder.txnRunCore (new_metadata filename lineno [])
            ⟨[], [], tags, links⟩ pre).2 ++
            BErr.tagsLinksAfterPosting (new_metadata filename lineno [])
              tl.tags tl.links ::
            (Builder.txnRunCore (new_metadata filename lineno [])
              (Builder.txnRunCore (new_metadata filename lineno [])
                ⟨[], [], tags, links⟩ pre).1 post).2) := by
      rw [txnRunCore_append, txnRunCore_cons, hstep]
      rfl
    have hrun2 : Builder.txnRunCore (new_metadata filename lineno [])
        ⟨[], [], tags, links⟩ (pre ++ post) =
        ((Builder.txnRunCore (new_metadata filename lineno [])
            (Builder.txnRunCore (new_metadata filename lineno [])
              ⟨[], [], tags, links⟩ pre).1 post).1,
          (Builder.txnRunCore (new_metadata filename lineno [])
            ⟨[], [], tags, links⟩ pre).2 ++
            (Builder.txnRunCore (new_metadata filename lineno [])
              (Builder.txnRunCore (new_metadata filename lineno [])
                ⟨[], [], tags, links⟩ pre).1 post).2) := txnRunCore_append ..
    refine ⟨hrun, by rw [hrun2], ?_, ?_⟩
    · simp [Builder.transaction, hrun, hrun2, Builder.unpack_txn_strings]
    · simp [Builder.transaction, hrun, Builder.unpack_txn_strings]
  · intro hnp
    have hpost0 : (Builder.txnRunCore (new_metadata filename lineno [])
        ⟨[], [], tags, links⟩ pre).1.postings = [] :=
      txnRunCore_postings_nil (new_metadata filename lineno []) pre _ rfl hnp
    have hstep := txnStepCore_tagsLinks_empty (new_metadata filename lineno [])
      (Builder.txnRunCore (new_metadata filename lineno [])
        ⟨[], [], tags, links⟩ pre).1 tl hpost0
    have hrunB : Builder.txnRunCore (new_metadata filename lineno [])
        ⟨[], [], tags, links⟩ (pre ++ Builder.TxnItem.tagsLinks tl :: post) =
        ((Builder.txnRunCore (new_metadata filename lineno [])
            (Builder.txnStepCore (new_metadata filename lineno [])
              (Builder.txnRunCore (new_metadata filename lineno [])
                ⟨[], [], tags, links⟩ pre).1 (.tagsLinks tl)).1 post).1,
          (Builder.txnRunCore (new_metadata filename lineno [])
            ⟨[], [], tags, links⟩ pre).2 ++
            (Builder.txnRunCore (new_metadata filename lineno [])
              (Builder.txnStepCore (new_metadata filename lineno [])
                (Builder.txnRunCore (new_metadata filename lineno [])
                  ⟨[], [], tags, links⟩ pre).1 (.tagsLinks tl)).1 post).2) := by
      rw [txnRunCore_append, txnRunCore_cons, hstep]
      rfl
    have hmemT : ∀ t ∈ tl.tags, t ∈
        (Builder.txnRunCore (new_metadata filename lineno [])
          ⟨[], [], tags, links⟩
          (pre ++ Builder.TxnItem.tagsLinks tl :: post)).1.tags := by
      intro t ht
      rw [hrunB]
      refine txnRunCore_tags_mem _ post _ t ?_
      rw [hstep]
      exact setUpdate_mem_src tl.tags _ t ht
    have hmemL : ∀ t ∈ tl.links, t ∈
        (Builder.txnRunCore (new_metadata filename lineno [])
          ⟨[], [], tags, links⟩
          (pre ++ Builder.TxnItem.tagsLinks tl :: post)).1.links := by
      intro t ht
      rw [hrunB]
      refine txnRunCore_links_mem _ post _ t ?_
      rw [hstep]
      exact setUpdate_mem_src tl.links _ t ht
    refine ⟨by rw [hrunB], hmemT, hmemL, ?_⟩
    refine ⟨_, rfl, ?_, ?_⟩
    · simp [Builder.transaction, Builder.unpack_txn_strings, finalize_tags_links_eq]
    · simp [Builder.transaction, Builder.unpack_txn_strings, finalize_tags_links_eq]

/-- Witness for C4: a bundle after a posting leaves exactly one error and
nothing else; a bundle before the first posting lands in the built
transaction's tag/link sets with no error. -/
theorem claim_C4_tags_links_placement_witness :
    (Builder.transaction (BuilderState.mk [] [] [] "" []) "f.b" 1 738004 42
        none [] []
        (some [Builder.TxnItem.posting
            (Posting.mk "Assets:Cash" .pynone .pynone .pynone none none),
          Builder.TxnItem.tagsLinks ⟨["t1"], ["l1"]⟩]) []).1.errors =
      [BErr.tagsLinksAfterPosting (new_metadata "f.b" 1 []) ["t1"] ["l1"]] ∧
    (∃ txn, (Builder.transaction (BuilderState.mk [] [] [] "" []) "f.b" 1 738004
        42 none [] [] (some [Builder.TxnItem.tagsLinks ⟨["t2"], ["l2"]⟩])
        []).2 = some txn ∧
      "t2" ∈ txn.tags ∧ "l2" ∈ txn.links) := by
  constructor
  · have h := (claim_C4_tags_links_placement (BuilderState.mk [] [] [] "" [])
        "f.b" 1 738004 42 [] [] []
        [Builder.TxnItem.posting
          (Posting.mk "Assets:Cash" .pynone .pynone .pynone none none)]
        [] ⟨["t1"], ["l1"]⟩).1
      ⟨Posting.mk "Assets:Cash" .pynone .pynone .pynone none none, by simp⟩
    simpa [Builder.txnRunCore, Builder.txnStepCore] using h.2.2.2
  · have h := (claim_C4_tags_links_placement (BuilderState.mk [] [] [] "" [])
        "f.b" 1 738004 42 [] [] [] [] [] ⟨["t2"], ["l2"]⟩).2 (by simp)
    obtain ⟨hrun, hmt, hml, txn, hEq, htags, hlinks⟩ := h
    refine ⟨txn, hEq, ?_, ?_⟩
    · rw [htags]
      exact hmt "t2" (by simp)
    · rw [hlinks]
      exact hml "l2" (by simp)

theorem txnStepCore_kv_entry_new (meta : MetaMap) (sc : Builder.TxnScratch)
    (k : String) (v : PyObj) (hp : sc.postings = [])
    (hl : dictLookup sc.explicit_meta k = none) :
    Builder.txnStepCore meta sc (.keyValue ⟨k, v⟩) =
      ({ sc with explicit_meta := sc.explicit_meta ++ [(k, v)] }, []) := by
  have hg : sc.postings.getLast? = none := by rw [hp]; rfl
  simp only [Builder.txnStepCore, hg, dictSetdefault_none _ _ _ hl]
  simp [PyObj.isNot]

theorem txnStepCore_kv_entry_dup (meta : MetaMap) (sc : Builder.TxnScratch)
    (k : String) (v v0 : PyObj) (hp : sc.postings = [])
    (hl : dictLookup sc.explicit_meta k = some v0) (hne : v0.id ≠ v.id) :
    Builder.txnStepCore meta sc (.keyValue ⟨k, v⟩) =
      (sc, [.duplicateEntryMeta meta ⟨k, v⟩]) := by
  have hg : sc.postings.getLast? = none := by rw [hp]; rfl
  simp only [Builder.txnStepCore, hg, dictSetdefault_some _ _ _ _ hl]
  simp [PyObj.isNot, hne]

theorem txnStepCore_kv_posting_new (meta : MetaMap) (sc : Builder.TxnScratch)
    (k : String) (v : PyObj) (qs : List Posting) (q : Posting)
    (hp : sc.postings = qs ++ [q])
    (hl : dictLookup (q.meta.getD []) k = none) :
    Builder.txnStepCore meta sc (.keyValue ⟨k, v⟩) =
      ({ sc with postings := qs ++
          [{ q with meta := some ((q.meta.getD []) ++ [(k, v)]) }] }, []) := by
  have hg : sc.postings.getLast? = some q := by
    rw [hp]; exact List.getLast?_concat _
  have hdl : sc.postings.dropLast = qs := by
    rw [hp]; exact List.dropLast_concat ..
  simp only [Builder.txnStepCore, hg, hdl, dictSetdefault_none _ _ _ hl]
  simp [PyObj.isNot]

theorem txnStepCore_kv_posting_dup (meta : MetaMap) (sc : Builder.TxnScratch)
    (k : String) (v v0 : PyObj) (qs : List Posting) (q : Posting)
    (hp : sc.postings = qs ++ [q])
    (hl : dictLookup (q.meta.getD []) k = some v0) (hne : v0.id ≠ v.id) :
    Builder.txnStepCore meta sc (.keyValue ⟨k, v⟩) =
      ({ sc with postings := qs ++ [{ q with meta := some (q.meta.getD []) }] },
        [.duplicatePostingMeta meta ⟨k, v⟩]) := by
  have hg : sc.postings.getLast? = some q := by
    rw [hp]; exact List.getLast?_concat _
  have hdl : sc.postings.dropLast = qs := by
    rw [hp]; exact List.dropLast_concat ..
  simp only [Builder.txnStepCore, hg, hdl, dictSetdefault_some _ _ _ _ hl]
  simp [PyObj.isNot, hne]

theorem txnRunCore_postings_length_no_posting (meta : MetaMap)
    (items : List Builder.TxnItem) :
    ∀ sc, (∀ p, Builder.TxnItem.posting p ∉ items) →
    (Builder.txnRunCore meta sc items).1.postings.length =
      sc.postings.length := by
  induction items with
  | nil => intro sc _; simp [Builder.txnRunCore]
  | cons it rest ih =>
      intro sc h
      have h2 : ∀ p, Builder.TxnItem.posting p ∉ rest :=
        fun p hv => h p (List.mem_cons_of_mem _ hv)
      rw [txnRunCore_cons, ih _ h2]
      cases it with
      | posting p => exact absurd (List.mem_cons_self _ _) (h p)
      | tagsLinks tl =>
          by_cases hp : sc.postings.isEmpty <;> simp [Builder.txnStepCore, hp]
      | keyValue kv =>
          cases hl : sc.postings.getLast? with
          | none => simp only [Builder.txnStepCore, hl]; split <;> rfl
          | some lastP =>
              have hne : sc.postings ≠ [] := by
                intro h0
                rw [h0] at hl
                exact Option.noConfusion hl
              have hlen : 0 < sc.postings.length := List.length_pos.mpr hne
              simp only [Builder.txnStepCore, hl]
              split <;>
                simp [List.length_dropLast] <;> omega

theorem txnStepCore_posting (meta : MetaMap) (sc : Builder.TxnScratch)
    (p : Posting) :
    Builder.txnStepCore meta sc (.posting p) =
      ({ sc with postings := sc.postings ++ [p] }, []) := rfl

/-- Entry-scope duplicate decomposition: starting from a loop state with
no postings and no binding for `k`, a sequence containing exactly two
entry-scope key-values for `k` (with distinct value objects) produces
exactly one duplicate error for `k`, and `k` stays bound to the first
value. -/
theorem txnRunCore_entry_dup_decomp (meta : MetaMap) (k : String)
    (v1 v2 : PyObj) (hv : v1.id ≠ v2.id)
    (pre mid post : List Builder.TxnItem) (sc : Builder.TxnScratch)
    (hp0 : sc.postings = [])
    (hl0 : dictLookup sc.explicit_meta k = none)
    (hppre : ∀ p, Builder.TxnItem.posting p ∉ pre)
    (hpmid : ∀ p, Builder.TxnItem.posting p ∉ mid)
    (hkpre : ∀ v, Builder.TxnItem.keyValue ⟨k, v⟩ ∉ pre)
    (hkmid : ∀ v, Builder.TxnItem.keyValue ⟨k, v⟩ ∉ mid)
    (hkpost : ∀ v, Builder.TxnItem.keyValue ⟨k, v⟩ ∉ post) :
    List.countP (isDupErrFor k)
      (Builder.txnRunCore meta sc
        (pre ++ Builder.TxnItem.keyValue ⟨k, v1⟩ ::
          (mid ++ Builder.TxnItem.keyValue ⟨k, v2⟩ :: post))).2 = 1 ∧
    dictLookup (Builder.txnRunCore meta sc
        (pre ++ Builder.TxnItem.keyValue ⟨k, v1⟩ ::
          (mid ++ Builder.TxnItem.keyValue ⟨k, v2⟩ :: post))).1.explicit_meta k
      = some v1 := by
  have hr1p : (Builder.txnRunCore meta sc pre).1.postings = [] :=
    txnRunCore_postings_nil meta pre sc hp0 hppre
  have hr1l : dictLookup (Builder.txnRunCore meta sc pre).1.explicit_meta k
      = none := by
    rw [txnRunCore_explicit_lookup meta k pre sc hkpre]
    exact hl0
  have hstep1 := txnStepCore_kv_entry_new meta
    (Builder.txnRunCore meta sc pre).1 k v1 hr1p hr1l
  have h2 : Builder.txnRunCore meta (Builder.txnRunCore meta sc pre).1
      (Builder.TxnItem.keyValue ⟨k, v1⟩ ::
        (mid ++ Builder.TxnItem.keyValue ⟨k, v2⟩ :: post)) =
      ((Builder.txnRunCore meta
          { (Builder.txnRunCore meta sc pre).1 with explicit_meta :=
            (Builder.txnRunCore meta sc pre).1.explicit_meta ++ [(k, v1)] }
          (mid ++ Builder.TxnItem.keyValue ⟨k, v2⟩ :: post)).1,
        (Builder.txnRunCore meta
          { (Builder.txnRunCore meta sc pre).1 with explicit_meta :=
            (Builder.txnRunCore meta sc pre).1.explicit_meta ++ [(k, v1)] }
          (mid ++ Builder.TxnItem.keyValue ⟨k, v2⟩ :: post)).2) := by
    rw [txnRunCore_cons, hstep1]
    rfl
  have hsc1p : ({ (Builder.txnRunCore meta sc pre).1 with explicit_meta :=
      (Builder.txnRunCore meta sc pre).1.explicit_meta ++ [(k, v1)] } :
        Builder.TxnScratch).postings = [] := hr1p
  have hsc1l : dictLookup
      ({ (Builder.txnRunCore meta sc pre).1 with explicit_meta :=
        (Builder.txnRunCore meta sc pre).1.explicit_meta ++ [(k, v1)] } :
          Builder.TxnScratch).explicit_meta k = some v1 :=
    dictLookup_setdefault_append _ _ _ hr1l
  have hrmp := txnRunCore_postings_nil meta mid _ hsc1p hpmid
  have hrml : dictLookup (Builder.txnRunCore meta
      { (Builder.txnRunCore meta sc pre).1 with explicit_meta :=
        (Builder.txnRunCore meta sc pre).1.explicit_meta ++ [(k, v1)] }
      mid).1.explicit_meta k = some v1 := by
    rw [txnRunCore_explicit_lookup meta k mid _ hkmid]
    exact hsc1l
  have hstep2 := txnStepCore_kv_entry_dup meta
    (Builder.txnRunCore meta
      { (Builder.txnRunCore meta sc pre).1 with explicit_meta :=
        (Builder.txnRunCore meta sc pre).1.explicit_meta ++ [(k, v1)] }
      mid).1 k v2 v1 hrmp hrml hv
  have h3 : Builder.txnRunCore meta
      (Builder.txnRunCore meta
        { (Builder.txnRunCore meta sc pre).1 with explicit_meta :=
          (Builder.txnRunCore meta sc pre).1.explicit_meta ++ [(k, v1)] }
        mid).1
      (Builder.TxnItem.keyValue ⟨k, v2⟩ :: post) =
      ((Builder.txnRunCore meta
          (Builder.txnRunCore meta
            { (Builder.txnRunCore meta sc pre).1 with explicit_meta :=
              (Builder.txnRunCore meta sc pre).1.explicit_meta ++ [(k, v1)] }
            mid).1 post).1,
        BErr.duplicateEntryMeta meta ⟨k, v2⟩ ::
          (Builder.txnRunCore meta
            (Builder.txnRunCore meta
              { (Builder.txnRunCore meta sc pre).1 with explicit_meta :=
                (Builder.txnRunCore meta sc pre).1.explicit_meta ++ [(k, v1)] }
              mid).1 post).2) := by
    rw [txnRunCore_cons, hstep2]
    rfl
  have cpre := txnRunCore_countP_zero meta k pre sc hkpre
  have cmid := txnRunCore_countP_zero meta k mid
    { (Builder.txnRunCore meta sc pre).1 with explicit_meta :=
      (Builder.txnRunCore meta sc pre).1.explicit_meta ++ [(k, v1)] } hkmid
  have cpost := txnRunCore_countP_zero meta k post
    (Builder.txnRunCore meta
      { (Builder.txnRunCore meta sc pre).1 with explicit_meta :=
        (Builder.txnRunCore meta sc pre).1.explicit_meta ++ [(k, v1)] }
      mid).1 hkpost
  constructor
  · rw [txnRunCore_append, h2]
    simp only [txnRunCore_append, h3]
    simp [List.countP_append, List.countP_cons, cpre, cmid, cpost, isDupErrFor]
  · rw [txnRunCore_append, h2]
    simp only [txnRunCore_append, h3]
    rw [txnRunCore_explicit_lookup meta k post _ hkpost]
    exact hrml

/-- Posting-scope duplicate decomposition: a posting `p` (with no binding
for `k` in its metadata) followed — in its own scope — by exactly two
key-values for `k` with distinct value objects produces exactly one
duplicate error for `k`, and the posting at `p`'s position in the final
posting list carries the first value for `k`. -/
theorem txnRunCore_posting_dup_decomp (meta : MetaMap) (k : String)
    (v1 v2 : PyObj) (hv : v1.id ≠ v2.id)
    (p : Posting) (hpmeta : dictLookup (p.meta.getD []) k = none)
    (pre mid1 mid2 post : List Builder.TxnItem) (sc : Builder.TxnScratch)
    (hpm1 : ∀ q, Builder.TxnItem.posting q ∉ mid1)
    (hpm2 : ∀ q, Builder.TxnItem.posting q ∉ mid2)
    (hkpre : ∀ v, Builder.TxnItem.keyValue ⟨k, v⟩ ∉ pre)
    (hkmid1 : ∀ v, Builder.TxnItem.keyValue ⟨k, v⟩ ∉ mid1)
    (hkmid2 : ∀ v, Builder.TxnItem.keyValue ⟨k, v⟩ ∉ mid2)
    (hkpost : ∀ v, Builder.TxnItem.keyValue ⟨k, v⟩ ∉ post) :
    List.countP (isDupErrFor k)
      (Builder.txnRunCore meta sc
        (pre ++ Builder.TxnItem.posting p ::
          (mid1 ++ Builder.TxnItem.keyValue ⟨k, v1⟩ ::
            (mid2 ++ Builder.TxnItem.keyValue ⟨k, v2⟩ :: post)))).2 = 1 ∧
    ∃ q rest,
      (Builder.txnRunCore meta sc
        (pre ++ Builder.TxnItem.posting p ::
          (mid1 ++ Builder.TxnItem.keyValue ⟨k, v1⟩ ::
            (mid2 ++ Builder.TxnItem.keyValue ⟨k, v2⟩ :: post)))).1.postings =
        (Builder.txnRunCore meta sc pre).1.postings ++ q :: rest ∧
      dictLookup (q.meta.getD []) k = some v1 := by
  set R1 := Builder.txnRunCore meta sc pre with hR1
  set scP : Builder.TxnScratch :=
    { R1.1 with postings := R1.1.postings ++ [p] } with hscP
  have h2 : Builder.txnRunCore meta R1.1
      (Builder.TxnItem.posting p ::
        (mid1 ++ Builder.TxnItem.keyValue ⟨k, v1⟩ ::
          (mid2 ++ Builder.TxnItem.keyValue ⟨k, v2⟩ :: post))) =
      ((Builder.txnRunCore meta scP
          (mid1 ++ Builder.TxnItem.keyValue ⟨k, v1⟩ ::
            (mid2 ++ Builder.TxnItem.keyValue ⟨k, v2⟩ :: post))).1,
        (Builder.txnRunCore meta scP
          (mid1 ++ Builder.TxnItem.keyValue ⟨k, v1⟩ ::
            (mid2 ++ Builder.TxnItem.keyValue ⟨k, v2⟩ :: post))).2) := by
    rw [txnRunCore_cons, txnStepCore_posting]
    rfl
  -- the state after mid1: p is still the last posting, untouched at k
  obtain ⟨q1, r1x, hsh1, hlk1⟩ :=
    txnRunCore_last_meta meta k mid1 scP R1.1.postings p rfl hkmid1
  have hr1x : r1x = [] := by
    have hlen1 := txnRunCore_postings_length_no_posting meta mid1 scP hpm1
    rw [hsh1] at hlen1
    have hsl : scP.postings.length = R1.1.postings.length + 1 := by
      simp [hscP]
    simp only [List.length_append, List.length_cons, hsl] at hlen1
    have : r1x.length = 0 := by omega
    exact List.length_eq_zero.mp this
  subst hr1x
  have hlk1n : dictLookup (q1.meta.getD []) k = none := by
    rw [hlk1, hpmeta]
  have hstep1 := txnStepCore_kv_posting_new meta
    (Builder.txnRunCore meta scP mid1).1 k v1 R1.1.postings q1 hsh1 hlk1n
  set q2 : Posting :=
    { q1 with meta := some ((q1.meta.getD []) ++ [(k, v1)]) } with hq2
  set sc2 : Builder.TxnScratch :=
    { (Builder.txnRunCore meta scP mid1).1 with postings :=
      R1.1.postings ++ [q2] } with hsc2
  have h3 : Builder.txnRunCore meta (Builder.txnRunCore meta scP mid1).1
      (Builder.TxnItem.keyValue ⟨k, v1⟩ ::
        (mid2 ++ Builder.TxnItem.keyValue ⟨k, v2⟩ :: post)) =
      ((Builder.txnRunCore meta sc2
          (mid2 ++ Builder.TxnItem.keyValue ⟨k, v2⟩ :: post)).1,
        (Builder.txnRunCore meta sc2
          (mid2 ++ Builder.TxnItem.keyValue ⟨k, v2⟩ :: post)).2) := by
    rw [txnRunCore_cons, hstep1]
    rfl
  have hlq2 : dictLookup (q2.meta.getD []) k = some v1 := by
    show dictLookup ((q1.meta.getD []) ++ [(k, v1)]) k = some v1
    exact dictLookup_setdefault_append _ _ _ hlk1n
  -- the state after mid2: q2 still last, binding for k preserved
  obtain ⟨q3, r3x, hsh3, hlk3⟩ :=
    txnRunCore_last_meta meta k mid2 sc2 R1.1.postings q2 rfl hkmid2
  have hr3x : r3x = [] := by
    have hlen3 := txnRunCore_postings_length_no_posting meta mid2 sc2 hpm2
    rw [hsh3] at hlen3
    have hsl : sc2.postings.length = R1.1.postings.length + 1 := by
      simp [hsc2]
    simp only [List.length_append, List.length_cons, hsl] at hlen3
    have : r3x.length = 0 := by omega
    exact List.length_eq_zero.mp this
  subst hr3x
  have hlk3s : dictLookup (q3.meta.getD []) k = some v1 := by
    rw [hlk3, hlq2]
  have hstep2 := txnStepCore_kv_posting_dup meta
    (Builder.txnRunCore meta sc2 mid2).1 k v2 v1 R1.1.postings q3 hsh3 hlk3s hv
  set q4 : Posting := { q3 with meta := some (q3.meta.getD []) } with hq4
  set sc3 : Builder.TxnScratch :=
    { (Builder.txnRunCore meta sc2 mid2).1 with postings :=
      R1.1.postings ++ [q4] } with hsc3
  have h4 : Builder.txnRunCore meta (Builder.txnRunCore meta sc2 mid2).1
      (Builder.TxnItem.keyValue ⟨k, v2⟩ :: post) =
      ((Builder.txnRunCore meta sc3 post).1,
        BErr.duplicatePostingMeta meta ⟨k, v2⟩ ::
          (Builder.txnRunCore meta sc3 post).2) := by
    rw [txnRunCore_cons, hstep2]
    rfl
  have hlq4 : dictLookup (q4.meta.getD []) k = some v1 := by
    show dictLookup (q3.meta.getD []) k = some v1
    exact hlk3s
  obtain ⟨q5, r5, hsh5, hlk5⟩ :=
    txnRunCore_last_meta meta k post sc3 R1.1.postings q4 rfl hkpost
  have cpre := txnRunCore_countP_zero meta k pre sc hkpre
  have cmid1 := txnRunCore_countP_zero meta k mid1 scP hkmid1
  have cmid2 := txnRunCore_countP_zero meta k mid2 sc2 hkmid2
  have cpost := txnRunCore_countP_zero meta k post sc3 hkpost
  constructor
  · rw [txnRunCore_append, h2]
    simp only [txnRunCore_append, h3, h4]
    simp [List.countP_append, List.countP_cons, cpre, cmid1, cmid2, cpost,
      isDupErrFor]
  · refine ⟨q5, r5, ?_, ?_⟩
    · rw [txnRunCore_append, h2]
      simp only [txnRunCore_append, h3, h4]
      exact hsh5
    · rw [hlk5, hlq4]

/-- Characterization of `Builder.transaction` with the `None` descriptor
sentinel: the state gains the loop's errors, and the Transaction is built
from the loop's final scratch state. -/
theorem transaction_none_eq (st : BuilderState) (filename : String)
    (lineno date flag : Nat) (tags links : List String)
    (items : List Builder.TxnItem) (am : MetaMap) :
    Builder.transaction st filename lineno date flag none tags links
        (some items) am =
      ({ st with errors := st.errors ++
          (Builder.txnRunCore (new_metadata filename lineno [])
            ⟨[], [], tags, links⟩ items).2 },
        some ⟨dictUpdate (dictUpdate (new_metadata filename lineno []) am)
            (Builder.txnRunCore (new_metadata filename lineno [])
              ⟨[], [], tags, links⟩ items).1.explicit_meta,
          date, Char.ofNat flag, none, "",
          (Builder.txnRunCore (new_metadata filename lineno [])
            ⟨[], [], tags, links⟩ items).1.tags,
          (Builder.txnRunCore (new_metadata filename lineno [])
            ⟨[], [], tags, links⟩ items).1.links,
          (Builder.txnRunCore (new_metadata filename lineno [])
            ⟨[], [], tags, links⟩ items).1.postings⟩) := by
  simp [Builder.transaction, Builder.unpack_txn_strings, finalize_tags_links_eq]

/-- C3 (amended): two KeyValue items with the same key attached to the
same scope — the entry scope, or one and the same posting's scope — whose
values are distinct objects (the source compares them with `is not`)
yield exactly one duplicate-key error for that scope, and the metadata
mapping retains the first value, never the second: in the entry scope the
first value survives into the built Transaction's metadata; in the
posting scope it survives on that posting. -/
theorem claim_C3_duplicate_meta (st : BuilderState) (filename : String)
    (lineno date flag : Nat) (tags links : List String) (am : MetaMap)
    (k : String) (v1 v2 : PyObj) (hv : v1.id ≠ v2.id) :
    (∀ pre mid post : List Builder.TxnItem,
      (∀ p, Builder.TxnItem.posting p ∉ pre) →
      (∀ p, Builder.TxnItem.posting p ∉ mid) →
      (∀ v, Builder.TxnItem.keyValue ⟨k, v⟩ ∉ pre) →
      (∀ v, Builder.TxnItem.keyValue ⟨k, v⟩ ∉ mid) →
      (∀ v, Builder.TxnItem.keyValue ⟨k, v⟩ ∉ post) →
      ∃ E txn,
        Builder.transaction st filename lineno date flag none tags links
          (some (pre ++ Builder.TxnItem.keyValue ⟨k, v1⟩ ::
            (mid ++ Builder.TxnItem.keyValue ⟨k, v2⟩ :: post))) am =
          ({ st with errors := st.errors ++ E }, some txn) ∧
        List.countP (isDupErrFor k) E = 1 ∧
        dictLookup txn.meta k = some v1) ∧
    (∀ (p : Posting) (pre mid1 mid2 post : List Builder.TxnItem),
      dictLookup (p.meta.getD []) k = none →
      (∀ q, Builder.TxnItem.posting q ∉ mid1) →
      (∀ q, Builder.TxnItem.posting q ∉ mid2) →
      (∀ v, Builder.TxnItem.keyValue ⟨k, v⟩ ∉ pre) →
      (∀ v, Builder.TxnItem.keyValue ⟨k, v⟩ ∉ mid1) →
      (∀ v, Builder.TxnItem.keyValue ⟨k, v⟩ ∉ mid2) →
      (∀ v, Builder.TxnItem.keyValue ⟨k, v⟩ ∉ post) →
      ∃ E txn q rest,
        Builder.transaction st filename lineno date flag none tags links
          (some (pre ++ Builder.TxnItem.posting p ::
            (mid1 ++ Builder.TxnItem.keyValue ⟨k, v1⟩ ::
              (mid2 ++ Builder.TxnItem.keyValue ⟨k, v2⟩ :: post)))) am =
          ({ st with errors := st.errors ++ E }, some txn) ∧
        List.countP (isDupErrFor k) E = 1 ∧
        txn.postings =
          (Builder.txnRunCore (new_metadata filename lineno [])
            ⟨[], [], tags, links⟩ pre).1.postings ++ q :: rest ∧
        dictLookup (q.meta.getD []) k = some v1) := by
  constructor
  · intro pre mid post hppre hpmid hkpre hkmid hkpost
    obtain ⟨hcount, hlook⟩ := txnRunCore_entry_dup_decomp
      (new_metadata filename lineno []) k v1 v2 hv pre mid post
      ⟨[], [], tags, links⟩ rfl rfl hppre hpmid hkpre hkmid hkpost
    refine ⟨_, _,
      transaction_none_eq st filename lineno date flag tags links _ am,
      hcount, ?_⟩
    have hnd := txnRunCore_explicit_nodup (new_metadata filename lineno [])
      (pre ++ Builder.TxnItem.keyValue ⟨k, v1⟩ ::
        (mid ++ Builder.TxnItem.keyValue ⟨k, v2⟩ :: post))
      ⟨[], [], tags, links⟩ (by simp)
    exact dictLookup_dictUpdate_of_some _ _ _ _ hnd hlook
  · intro p pre mid1 mid2 post hpmeta hpm1 hpm2 hkpre hkmid1 hkmid2 hkpost
    obtain ⟨hcount, q, rest, hsh, hlook⟩ := txnRunCore_posting_dup_decomp
      (new_metadata filename lineno []) k v1 v2 hv p hpmeta pre mid1 mid2 post
      ⟨[], [], tags, links⟩ hpm1 hpm2 hkpre hkmid1 hkmid2 hkpost
    exact ⟨_, _, q, rest,
      transaction_none_eq st filename lineno date flag tags links _ am,
      hcount, hsh, hlook⟩

/-- C3, counterexample to the claim as frozen: two KeyValue items with the
same key whose values are the very same object (equal identity — e.g. the
interned boolean singleton `True` returned twice by the lexer) record NO
duplicate-key error at all: the built transaction's error list is empty,
where the claim requires exactly one error. -/
theorem claim_C3_duplicate_meta_counterexample :
    (Builder.transaction (BuilderState.mk [] [] [] "" []) "f.b" 1 738005 42
      none [] []
      (some [Builder.TxnItem.keyValue ⟨"k", ⟨7, .bool true⟩⟩,
             Builder.TxnItem.keyValue ⟨"k", ⟨7, .bool true⟩⟩]) []).1.errors
      = [] ∧
    (∃ txn, (Builder.transaction (BuilderState.mk [] [] [] "" []) "f.b" 1
      738005 42 none [] []
      (some [Builder.TxnItem.keyValue ⟨"k", ⟨7, .bool true⟩⟩,
             Builder.TxnItem.keyValue ⟨"k", ⟨7, .bool true⟩⟩]) []).2 =
        some txn ∧ dictLookup txn.meta "k" = some ⟨7, .bool true⟩) :=
  ⟨rfl, ⟨_, rfl, rfl⟩⟩

/-- Witness for the amended C3 at a concrete input: distinct value objects
for the same entry-scope key give exactly one duplicate error and keep the
first value. -/
theorem claim_C3_duplicate_meta_witness :
    ∃ E txn,
      Builder.transaction (BuilderState.mk [] [] [] "" []) "f.b" 1 738005 42
        none [] []
        (some ([] ++ Builder.TxnItem.keyValue ⟨"k", ⟨1, .str "a"⟩⟩ ::
          ([] ++ Builder.TxnItem.keyValue ⟨"k", ⟨2, .str "b"⟩⟩ :: []))) [] =
        ({ BuilderState.mk [] [] [] "" [] with
            errors := (BuilderState.mk [] [] [] "" []).errors ++ E },
          some txn) ∧
      List.countP (isDupErrFor "k") E = 1 ∧
      dictLookup txn.meta "k" = some ⟨1, .str "a"⟩ :=
  (claim_C3_duplicate_meta (BuilderState.mk [] [] [] "" []) "f.b" 1 738005 42
    [] [] [] "k" ⟨1, .str "a"⟩ ⟨2, .str "b"⟩ (by decide)).1 [] [] []
    (by simp) (by simp) (by simp) (by simp) (by simp)

end BeancountGrammar
